import Mathlib

/-!
Verification of the LibreSSL name-constraint core and the big-number word
primitives, as a shallow embedding in Lean 4.

Machine words of width `w` are modelled as natural numbers; every C operation
that can wrap is followed by an explicit `% 2 ^ w`.  Byte strings are modelled
as `List Nat` of byte values (no NUL terminators; the decoding layer hands the
core NUL-free spans).  Fallible C functions returning `0`/`1` with output
parameters become `Option`/`Except` valued functions.
-/

/-! ## Word arithmetic primitives (bn_internal.h) -/

/-- Bitwise complement of a `w`-bit word: on a `w`-bit machine word C's
tilde operator is XOR with the all-ones mask. -/
def wnot (w a : Nat) : Nat := a ^^^ (2 ^ w - 1)

/-- bn_addw, BN_LLONG variant: the double-word sum `r = a + b` split as
`(r >> w, r & mask)`. -/
def bn_addw (w a b : Nat) : Nat × Nat :=
  ((a + b) / 2 ^ w, (a + b) % 2 ^ w)

/-- bn_addw, non-BN_LLONG variant: the carry is recovered from the wrapped
sum with the bitwise formula `((c1 & ~r0) | c2) >> (w - 1)` where
`c1 = a | b`, `c2 = a & b`. -/
def bn_addw_masked (w a b : Nat) : Nat × Nat :=
  let c1 := a ||| b
  let c2 := a &&& b
  let r0 := (a + b) % 2 ^ w
  let r1 := ((c1 &&& wnot w r0) ||| c2) >>> (w - 1)
  (r1, r0)

/-- bn_addw_addw: `(r1:r0) = a + b + c`; the two partial carries are summed
into `r1` in word arithmetic. -/
def bn_addw_addw (w a b c : Nat) : Nat × Nat :=
  let (r1, r0) := bn_addw w a b
  let (carry, r0') := bn_addw w r0 c
  ((r1 + carry) % 2 ^ w, r0')

/-- bn_subw: `r0 = a - b` wrapped, with the borrow recovered by the bitwise
formula `((r0 | (b & ~a)) & (b | ~a)) >> (w - 1)`. -/
def bn_subw (w a b : Nat) : Nat × Nat :=
  let r0 := (2 ^ w + a - b) % 2 ^ w
  let borrow := ((r0 ||| (b &&& wnot w a)) &&& (b ||| wnot w a)) >>> (w - 1)
  (borrow, r0)

/-- bn_subw_subw: `r0 = a - b - c`; the two partial borrows are summed in
word arithmetic. -/
def bn_subw_subw (w a b c : Nat) : Nat × Nat :=
  let (b1, r0) := bn_subw w a b
  let (b2, r0') := bn_subw w r0 c
  ((b1 + b2) % 2 ^ w, r0')

/-- bn_umul_hilo, BN_LLONG variant: the double-word product
`r = (BN_ULLONG)a * b` split as `(r >> w, r & mask)`. -/
def bn_umul_hilo (w a b : Nat) : Nat × Nat :=
  (a * b / 2 ^ w, a * b % 2 ^ w)

/-- bn_umul_hilo, non-BN_LLONG variant: branch-free half-word decomposition.
`w` is split as `hw + hw`; all intermediate word operations wrap mod `2 ^ w`
exactly as the C word arithmetic does. -/
def bn_umul_hilo_halfword (hw a b : Nat) : Nat × Nat :=
  let w := 2 * hw
  let ml := 2 ^ hw - 1
  let ah := a >>> hw
  let al := a &&& ml
  let bh := b >>> hw
  let bl := b &&& ml
  let h0 := ah * bh % 2 ^ w
  let l0 := al * bl % 2 ^ w
  -- first cross term (ah * bl) << hw, partitioned across h:l with carry
  let x1 := ah * bl % 2 ^ w
  let h1 := (h0 + (x1 >>> hw)) % 2 ^ w
  let x1s := x1 <<< hw % 2 ^ w
  let c11 := l0 ||| x1s
  let c12 := l0 &&& x1s
  let l1 := (l0 + x1s) % 2 ^ w
  let h2 := (h1 + (((c11 &&& wnot w l1) ||| c12) >>> (w - 1))) % 2 ^ w
  -- second cross term (bh * al) << hw
  let x2 := bh * al % 2 ^ w
  let h3 := (h2 + (x2 >>> hw)) % 2 ^ w
  let x2s := x2 <<< hw % 2 ^ w
  let c21 := l1 ||| x2s
  let c22 := l1 &&& x2s
  let l2 := (l1 + x2s) % 2 ^ w
  let h4 := (h3 + (((c21 &&& wnot w l2) ||| c22) >>> (w - 1))) % 2 ^ w
  (h4, l2)

/-- bn_mulw_addw: `(r1:r0) = a * b + c`. -/
def bn_mulw_addw (w a b c : Nat) : Nat × Nat :=
  let (r1, r0) := bn_umul_hilo w a b
  let (carry, r0') := bn_addw w r0 c
  ((r1 + carry) % 2 ^ w, r0')

/-- bn_mulw_addw_addw: `(r1:r0) = a * b + c + d`. -/
def bn_mulw_addw_addw (w a b c d : Nat) : Nat × Nat :=
  let (r1, r0) := bn_mulw_addw w a b c
  let (carry, r0') := bn_addw w r0 d
  ((r1 + carry) % 2 ^ w, r0')

/-! ## Byte and character helpers (ctype, C locale) -/

/-- The bytes of a string literal, convenience for concrete test inputs. -/
def bytes (s : String) : List Nat := s.toList.map Char.toNat

/-- isascii: byte values 0..127. -/
def isAsciiB (c : Nat) : Bool := c < 128

def isDigitB (c : Nat) : Bool := 48 ≤ c && c ≤ 57

def isUpperB (c : Nat) : Bool := 65 ≤ c && c ≤ 90

def isLowerB (c : Nat) : Bool := 97 ≤ c && c ≤ 122

/-- isalnum in the C locale. -/
def isAlnumB (c : Nat) : Bool := isDigitB c || isUpperB c || isLowerB c

/-- tolower in the C locale, as used by strncasecmp. -/
def tolowerB (c : Nat) : Nat := if isUpperB c then c + 32 else c

/-- strncasecmp(a, b, n) == 0 for two spans of equal length n. -/
def ncaseEq (a b : List Nat) : Bool := a.map tolowerB == b.map tolowerB

/-! ## GENERAL_NAME type tags and error codes (numeric values from the
public OpenSSL headers; only their distinctness matters here) -/

def GEN_EMAIL : Nat := 1
def GEN_DNS : Nat := 2
def GEN_DIRNAME : Nat := 4
def GEN_URI : Nat := 6
def GEN_IPADD : Nat := 7

def AF_INET : Nat := 2
def AF_INET6 : Nat := 24

def X509_V_ERR_UNSPECIFIED : Nat := 1
def X509_V_ERR_OUT_OF_MEM : Nat := 17
def X509_V_ERR_PERMITTED_VIOLATION : Nat := 47
def X509_V_ERR_EXCLUDED_VIOLATION : Nat := 48
def X509_V_ERR_SUBTREE_MINMAX : Nat := 49
def X509_V_ERR_UNSUPPORTED_CONSTRAINT_SYNTAX : Nat := 52
def X509_V_ERR_UNSUPPORTED_NAME_SYNTAX : Nat := 53

/-! ## Normalized names (struct x509_constraints_name)

A zeroed (calloc) record has type 0, no strings, and a zero address buffer;
`x509_constraints_validate` relies on type 0 meaning "not assigned". -/

structure CName where
  type : Nat := 0
  name : List Nat := []
  localPart : Option (List Nat) := none
  der : List Nat := []
  af : Nat := 0
  address : List Nat := List.replicate 32 0
  deriving DecidableEq, Repr

/-! ## Name validators -/

/-- The character loop of x509_constraints_valid_domain_internal.
`prev` is the previous byte (0 before the first), `component` the running
length of the current label, `first` whether this is the very first byte. -/
def vdi_go : List Nat → Nat → Nat → Bool → Bool
  | [], _, _, _ => true
  | c :: rest, prev, component, first =>
    if !isAsciiB c || c == 0 then false
    else if !isAlnumB c && c != 45 && c != 46 && c != 95 && c != 42 then false
    else if c == 42 && !first then false
    else if c == 45 && (component == 0 || rest.isEmpty) then false
    else if c == 46 && ((component == 0 && !first) || rest.isEmpty) then false
    else if c == 46 then
      if prev == 45 then false
      else vdi_go rest c 0 false
    else if component + 1 > 63 then false
    else vdi_go rest c (component + 1) false

/-- x509_constraints_valid_domain_internal. -/
def x509_constraints_valid_domain_internal (name : List Nat) : Bool :=
  if name.length > 255 then false
  else vdi_go name 0 0 true

/-- x509_constraints_valid_domain. -/
def x509_constraints_valid_domain (name : List Nat) : Bool :=
  if name.length == 0 then false
  else if name.head? == some 42 then false
  else if name.length < 3 && name.head? == some 46 then false
  else x509_constraints_valid_domain_internal name

/-- Modelled from the spec: inet_pton(AF_INET, s, ..) == 1, i.e. `s` "parses
as a literal IPv4 textual address" in presentation form — exactly four
dot-separated decimal parts of one to three digits each with value <= 255.
(inet_pton itself is libc, outside this repository's sources.) -/
def inet_pton_af_inet (s : List Nat) : Bool :=
  let parts := s.splitOn 46
  parts.length == 4 &&
    parts.all (fun p =>
      1 ≤ p.length && p.length ≤ 3 && p.all isDigitB &&
        p.foldl (fun a d => a * 10 + (d - 48)) 0 ≤ 255)

/-- Modelled from the spec: inet_pton(AF_INET6, s, ..) == 1, i.e. `s` "parses
as a literal IPv6 textual address".  Every textual IPv6 address contains a
colon, and a colon is rejected by the hostname grammar below, so this
over-approximation does not affect any property proved here. -/
def inet_pton_af_inet6 (s : List Nat) : Bool := s.contains 58

/-- x509_constraints_valid_host. -/
def x509_constraints_valid_host (name : List Nat) : Bool :=
  if name.length == 0 then false
  else if name.head? == some 42 then false
  else if name.head? == some 46 then false
  else if inet_pton_af_inet name then false
  else if inet_pton_af_inet6 name then false
  else x509_constraints_valid_domain_internal name

/-- x509_constraints_valid_sandns. -/
def x509_constraints_valid_sandns (name : List Nat) : Bool :=
  if name.length == 0 then false
  else if name.head? == some 46 then false
  else if name.length < 4 && name.head? == some 42 then false
  else if name.length ≥ 4 && name.head? == some 42 && name.get? 1 != some 46 then false
  else x509_constraints_valid_domain_internal name

/-- x509_constraints_valid_domain_constraint. -/
def x509_constraints_valid_domain_constraint (constraint : List Nat) : Bool :=
  if constraint.length == 0 then true
  else if constraint.head? == some 42 then false
  else if constraint.length < 3 && constraint.head? == some 46 then false
  else x509_constraints_valid_domain_internal constraint

/-! ## Mailbox parser (x509_constraints_parse_mailbox)

The C state machine is carried as: the remaining input, the `working`
buffer (its length is `wi`), the saved `candidate_local`/`candidate_domain`
parts, and the `accept`/`quoted` flags; `first` marks `i == 0` and an empty
remainder marks `i == len - 1`.  The post-loop checks live in the `[]` case.
On success the local and domain parts are returned; any `goto bad` is
`none`. -/
def local_part_ok (c : Nat) : Bool :=
  (48 ≤ c && c ≤ 57) || (97 ≤ c && c ≤ 122) || (65 ≤ c && c ≤ 90) ||
  c == 33 || c == 35 || c == 36 || c == 37 || c == 38 || c == 39 ||
  c == 42 || c == 43 || c == 45 || c == 47 || c == 61 || c == 63 ||
  c == 94 || c == 95 || c == 96 || c == 123 || c == 124 || c == 125 ||
  c == 126 || c == 46

def mailbox_go : List Nat → List Nat → Option (List Nat) → Option (List Nat) →
    Bool → Bool → Bool → Option (List Nat × List Nat)
  | [], working, cl, cd, _, _, _ =>
    match cl, cd with
    | some l, some d =>
      if x509_constraints_valid_host d then some (l, d) else none
    | _, _ => none
  | c :: rest, working, cl, cd, accept, quoted, first =>
    if !isAsciiB c || c == 13 || c == 10 || c == 0 then none
    else
      let quoted := if first && c == 34 then true else quoted
      if first && c == 46 then none
      else if working.length > 255 then none
      else if accept then mailbox_go rest (working ++ [c]) cl cd false quoted false
      else
        match cl with
        | some _ =>
          -- looking for the domain part
          if working.length > 255 then none
          else
            let working := working ++ [c]
            if rest.isEmpty then
              if working.length == 0 then none
              else if cd.isSome then none
              else mailbox_go rest working cl (some working) accept quoted false
            else mailbox_go rest working cl cd accept quoted false
        | none =>
          -- looking for the local part
          if working.length > 64 then none
          else if quoted then
            if c == 92 then mailbox_go rest working cl cd true quoted false
            else if c == 34 && !first then
              if rest.head? != some 64 then none
              else if c == 9 then none
              else mailbox_go rest (working ++ [c]) cl cd accept false false
            else if c == 9 then none
            else mailbox_go rest (working ++ [c]) cl cd accept quoted false
          else if c == 64 then
            if working.length == 0 then none
            else if cl.isSome then none
            else mailbox_go rest [] (some working) cd accept quoted false
          else if c == 92 then
            if rest.isEmpty then none
            else if !local_part_ok (rest.headD 0) then none
            else if !local_part_ok c then none
            else mailbox_go rest (working ++ [c]) cl cd true quoted false
          else if !local_part_ok c then none
          else mailbox_go rest (working ++ [c]) cl cd accept quoted false

/-- x509_constraints_parse_mailbox: on success returns the updated name
record and 1 (true); on failure returns the untouched record and 0. -/
def x509_constraints_parse_mailbox (candidate : Option (List Nat))
    (name : CName) : CName × Bool :=
  match candidate with
  | none => (name, false)
  | some cs =>
    if cs.length > 64 + 255 + 1 then (name, false)
    else
      match mailbox_go cs [] none none false false true with
      | none => (name, false)
      | some (l, d) =>
        ({ name with localPart := some l, name := d, type := GEN_EMAIL }, true)

/-! ## URI host extraction (x509_constraints_uri_host) -/

/-- The first loop of x509_constraints_uri_host: scan for the first `//`,
requiring ASCII on the way; returns the remainder after the `//`
(the authority) or none.  The loop index stops at `len - 1`, hence the
single-element base case. -/
def uri_find_authority : List Nat → Option (List Nat)
  | [] => none
  | [_] => none
  | a :: b :: rest =>
    if !isAsciiB a then none
    else if a == 47 && b == 47 then some rest
    else uri_find_authority (b :: rest)

/-- The bytes that end the host scan: colon, slash, question mark, hash. -/
def isUriTermB (c : Nat) : Bool := c == 58 || c == 47 || c == 63 || c == 35

/-- The second loop of x509_constraints_uri_host: scan the authority.
`host` mirrors the C `host` pointer (the suffix starting right after the
userinfo `@`), `hostlen` the running host length.  Returns none on a
non-ASCII byte, otherwise the final `(host, hostlen)` pair. -/
def uri_scan : List Nat → Option (List Nat) → Nat → Option (Option (List Nat) × Nat)
  | [], host, hostlen => some (host, hostlen)
  | c :: rest, host, hostlen =>
    if !isAsciiB c then none
    else if c == 64 then
      match host with
      | some _ => some (host, 0)
      | none => uri_scan rest (some rest) 0
    else if isUriTermB c then some (host, hostlen)
    else uri_scan rest host (hostlen + 1)

/-- x509_constraints_uri_host: some hostpart (strndup of the host span) on
success, none on failure. -/
def x509_constraints_uri_host (uri : List Nat) : Option (List Nat) :=
  if uri.length < 3 then none
  else
    match uri_find_authority uri with
    | none => none
    | some authority =>
      match uri_scan authority none 0 with
      | none => none
      | some (host, hostlen) =>
        if hostlen == 0 then none
        else if !x509_constraints_valid_host ((host.getD authority).take
            hostlen) then none
        else some ((host.getD authority).take hostlen)

/-! ## Matcher -/

/-- x509_constraints_sandns: empty constraint matches everything, otherwise
a case-insensitive comparison of the last `len` bytes of the name. -/
def x509_constraints_sandns (sandns : List Nat) (constraint : List Nat) : Bool :=
  if constraint.length == 0 then true
  else if sandns.length < constraint.length then false
  else ncaseEq (sandns.drop (sandns.length - constraint.length)) constraint

/-- x509_constraints_domain: the general domain comparator. -/
def x509_constraints_domain (domain : List Nat) (constraint : List Nat) : Bool :=
  if constraint.length == 0 then true
  else if constraint.head? == some 46 then
    if domain.length < constraint.length then false
    else ncaseEq (domain.drop (domain.length - constraint.length)) constraint
  else if domain.head? == some 46 then
    if constraint.length < domain.length then false
    else ncaseEq (constraint.drop (constraint.length - domain.length)) domain
  else if domain.length != constraint.length then false
  else ncaseEq domain constraint

/-- x509_constraints_ipaddr: compare `address & mask` against
`constraint_address & mask` bytewise; the mask is the second half of the
constraint bytes. -/
def x509_constraints_ipaddr (address : List Nat) (alen : Nat)
    (constraint : List Nat) (len : Nat) : Bool :=
  if alen * 2 != len then false
  else
    (List.range alen).all fun i =>
      (address.getD i 0) &&& (constraint.getD (alen + i) 0) ==
        (constraint.getD i 0) &&& (constraint.getD (alen + i) 0)

/-- x509_constraints_dirname: byte-for-byte equality of DER encodings. -/
def x509_constraints_dirname (dirname : List Nat) (constraint : List Nat) : Bool :=
  constraint == dirname

/-- x509_constraints_match. -/
def x509_constraints_match (name constraint : CName) : Bool :=
  if name.type != constraint.type then false
  else if name.type == GEN_DNS then
    x509_constraints_sandns name.name constraint.name
  else if name.type == GEN_URI then
    x509_constraints_domain name.name constraint.name
  else if name.type == GEN_IPADD then
    let nlen := if name.af == AF_INET then 4 else 16
    let clen := if name.af == AF_INET then 8 else 32
    if name.af != AF_INET && name.af != AF_INET6 then false
    else if constraint.af != AF_INET && constraint.af != AF_INET6 then false
    else if name.af != constraint.af then false
    else x509_constraints_ipaddr name.address nlen constraint.address clen
  else if name.type == GEN_EMAIL then
    match constraint.localPart with
    | some cl =>
      name.localPart == some cl && name.name == constraint.name
    | none => x509_constraints_domain name.name constraint.name
  else if name.type == GEN_DIRNAME then
    x509_constraints_dirname name.der constraint.der
  else false

/-! ## Check rule (x509_constraints_check) -/

/-- The inner permitted loop of x509_constraints_check: returns the
`permitted_seen` count and the `permitted_matched` flag; the loop breaks at
the first matching entry. -/
def permitted_scan (n : CName) : List CName → Nat × Bool
  | [] => (0, false)
  | p :: ps =>
    let seen : Nat := if p.type == n.type then 1 else 0
    if x509_constraints_match n p then (seen, true)
    else (seen + (permitted_scan n ps).1, (permitted_scan n ps).2)

/-- x509_constraints_check: 1 becomes `.ok ()`, 0-with-error becomes
`.error code`. -/
def x509_constraints_check (names permitted excluded : List CName) :
    Except Nat Unit :=
  match names with
  | [] => .ok ()
  | n :: rest =>
    if excluded.any (fun e => x509_constraints_match n e) then
      .error X509_V_ERR_EXCLUDED_VIOLATION
    else
      let sm := permitted_scan n permitted
      if sm.1 != 0 && !sm.2 then .error X509_V_ERR_PERMITTED_VIOLATION
      else x509_constraints_check rest permitted excluded

/-! ## Certificate accessors (the decoding-layer boundary of section 6 of
the spec): a GENERAL_NAME is a type tag plus the bytes that
x509_constraints_general_to_bytes would extract. -/

inductive GeneralName where
  | dns (s : List Nat)
  | email (s : List Nat)
  | uri (s : List Nat)
  | dirname (der : List Nat)
  | ipadd (b : List Nat)
  | other
  deriving DecidableEq, Repr

/-- x509_constraints_general_to_bytes: the returned type tag (0 for an
unhandled type) and bytes. -/
def x509_constraints_general_to_bytes : GeneralName → Nat × List Nat
  | .dns s => (GEN_DNS, s)
  | .email s => (GEN_EMAIL, s)
  | .uri s => (GEN_URI, s)
  | .dirname d => (GEN_DIRNAME, d)
  | .ipadd b => (GEN_IPADD, b)
  | .other => (0, [])

structure GeneralSubtree where
  base : GeneralName
  /-- whether a non-default minimum or maximum depth is present -/
  minmax : Bool
  deriving DecidableEq, Repr

structure NameConstraints where
  permittedSubtrees : List GeneralSubtree
  excludedSubtrees : List GeneralSubtree
  deriving DecidableEq, Repr

structure X509Cert where
  altnames : List GeneralName
  /-- number of X509_NAME entries of the subject -/
  subject_entry_count : Nat
  /-- canonical DER encoding of the subject name -/
  subject_der : List Nat
  /-- data of the NID_pkcs9_emailAddress attributes, in index order -/
  subject_emails : List (List Nat)
  /-- data of the NID_commonName attributes, in index order -/
  subject_cns : List (List Nat)
  nc : Option NameConstraints
  deriving DecidableEq, Repr

/-! ## Name extraction (x509_constraints_extract_names) -/

/-- The altname loop of x509_constraints_extract_names.  `include_cn` and
`include_email` start as `is_leaf` and are cleared by DNS / email SAN
entries.  Unhandled types are skipped.  Allocation failures do not occur in
the model. -/
def extract_altnames : List GeneralName → List CName → Bool → Bool →
    Except Nat (List CName × Bool × Bool)
  | [], acc, include_cn, include_email => .ok (acc, include_cn, include_email)
  | g :: rest, acc, include_cn, include_email =>
    match g with
    | .dns s =>
      if !x509_constraints_valid_sandns s then
        .error X509_V_ERR_UNSUPPORTED_NAME_SYNTAX
      else
        extract_altnames rest (acc ++ [{ name := s, type := GEN_DNS }])
          false include_email
    | .email s =>
      match x509_constraints_parse_mailbox (some s) {} with
      | (_, false) => .error X509_V_ERR_UNSUPPORTED_NAME_SYNTAX
      | (v, true) =>
        extract_altnames rest (acc ++ [{ v with type := GEN_EMAIL }])
          include_cn false
    | .uri s =>
      match x509_constraints_uri_host s with
      | none => .error X509_V_ERR_UNSUPPORTED_NAME_SYNTAX
      | some h =>
        extract_altnames rest (acc ++ [{ name := h, type := GEN_URI }])
          include_cn include_email
    | .dirname d =>
      if d.length == 0 then .error X509_V_ERR_UNSUPPORTED_NAME_SYNTAX
      else
        extract_altnames rest (acc ++ [{ der := d, type := GEN_DIRNAME }])
          include_cn include_email
    | .ipadd b =>
      let af := if b.length == 4 then AF_INET
                else if b.length == 16 then AF_INET6 else 0
      if af != AF_INET && af != AF_INET6 then
        .error X509_V_ERR_UNSUPPORTED_NAME_SYNTAX
      else
        extract_altnames rest
          (acc ++ [{ af := af, address := b ++ List.replicate (32 - b.length) 0,
                     type := GEN_IPADD }])
          include_cn include_email
    | .other => extract_altnames rest acc include_cn include_email

/-- The subject email loop: each email attribute must parse as a mailbox. -/
def extract_subject_emails : List (List Nat) → List CName →
    Except Nat (List CName)
  | [], acc => .ok acc
  | e :: rest, acc =>
    match x509_constraints_parse_mailbox (some e) {} with
    | (_, false) => .error X509_V_ERR_UNSUPPORTED_NAME_SYNTAX
    | (v, true) =>
      extract_subject_emails rest (acc ++ [{ v with type := GEN_EMAIL }])

/-- The subject CN loop: attributes that do not look like hostnames are
skipped. -/
def extract_subject_cns : List (List Nat) → List CName → List CName
  | [], acc => acc
  | c :: rest, acc =>
    if !x509_constraints_valid_host c then extract_subject_cns rest acc
    else extract_subject_cns rest (acc ++ [{ name := c, type := GEN_DNS }])

/-- x509_constraints_extract_names: appends the extracted names of `cert`
to `names`; on failure the error code is returned instead. -/
def x509_constraints_extract_names (names : List CName) (cert : X509Cert)
    (is_leaf : Bool) : Except Nat (List CName) := do
  let (acc, include_cn, include_email) ←
    extract_altnames cert.altnames names is_leaf is_leaf
  if cert.subject_entry_count > 0 then
    let acc := acc ++ [{ der := cert.subject_der, type := GEN_DIRNAME }]
    let acc ←
      if include_email then extract_subject_emails cert.subject_emails acc
      else pure acc
    let acc :=
      if include_cn then extract_subject_cns cert.subject_cns acc else acc
    return acc
  else
    return acc

/-! ## Constraint extraction -/

/-- x509_constraints_validate: validate one GENERAL_NAME constraint into a
(zeroed) name record; an unrecognized type succeeds leaving type 0. -/
def x509_constraints_validate (constraint : GeneralName) (name : CName) :
    Except Nat CName :=
  let (name_type, bs) := x509_constraints_general_to_bytes constraint
  if name_type == GEN_DIRNAME then
    if bs.length == 0 then .error X509_V_ERR_UNSUPPORTED_CONSTRAINT_SYNTAX
    else .ok { name with der := bs, type := GEN_DIRNAME }
  else if name_type == GEN_DNS then
    if !x509_constraints_valid_domain_constraint bs then
      .error X509_V_ERR_UNSUPPORTED_CONSTRAINT_SYNTAX
    else .ok { name with name := bs, type := GEN_DNS }
  else if name_type == GEN_EMAIL then
    if bs.contains 64 then
      match x509_constraints_parse_mailbox (some bs) name with
      | (_, false) => .error X509_V_ERR_UNSUPPORTED_CONSTRAINT_SYNTAX
      | (v, true) => .ok { v with type := GEN_EMAIL }
    else
      if !x509_constraints_valid_domain_constraint bs then
        .error X509_V_ERR_UNSUPPORTED_CONSTRAINT_SYNTAX
      else .ok { name with name := bs, type := GEN_EMAIL }
  else if name_type == GEN_IPADD then
    if bs.length == 8 then
      .ok { name with af := AF_INET,
                      address := bs ++ name.address.drop bs.length,
                      type := GEN_IPADD }
    else if bs.length == 32 then
      .ok { name with af := AF_INET6,
                      address := bs ++ name.address.drop bs.length,
                      type := GEN_IPADD }
    else .error X509_V_ERR_UNSUPPORTED_CONSTRAINT_SYNTAX
  else if name_type == GEN_URI then
    if !x509_constraints_valid_domain_constraint bs then
      .error X509_V_ERR_UNSUPPORTED_CONSTRAINT_SYNTAX
    else .ok { name with name := bs, type := GEN_URI }
  else .ok name

/-- One subtree list of x509_constraints_extract_constraints. -/
def extract_subtrees : List GeneralSubtree → List CName →
    Except Nat (List CName)
  | [], acc => .ok acc
  | st :: rest, acc =>
    if st.minmax then .error X509_V_ERR_SUBTREE_MINMAX
    else
      match x509_constraints_validate st.base {} with
      | .error e => .error e
      | .ok vname =>
        if vname.type == 0 then extract_subtrees rest acc
        else extract_subtrees rest (acc ++ [vname])

/-- x509_constraints_extract_constraints: the permitted and excluded name
sets of the certificate's NameConstraints (empty if absent). -/
def x509_constraints_extract_constraints (cert : X509Cert) :
    Except Nat (List CName × List CName) := do
  match cert.nc with
  | none => return ([], [])
  | some nc =>
    let permitted ← extract_subtrees nc.permittedSubtrees []
    let excluded ← extract_subtrees nc.excludedSubtrees []
    return (permitted, excluded)

/-! ## Chain walking -/

/-- Modelled from the spec: the fixed resource ceilings of section 5
(X509_VERIFY_MAX_CHAIN_NAMES / ..._CONSTRAINTS live in x509_internal.h,
which is not among the given sources).  Their concrete values are
irrelevant to the properties proved here. -/
def X509_VERIFY_MAX_CHAIN_NAMES : Nat := 512

def X509_VERIFY_MAX_CHAIN_CONSTRAINTS : Nat := 2048

/-- The per-intermediate loop of x509_constraints_chain, starting at chain
index `i` with the accumulated names and constraint count. -/
def chain_go : List X509Cert → List CName → Nat → Nat →
    Except (Nat × Nat) Unit
  | [], _, _, _ => .ok ()
  | cert :: rest, names, i, ccount =>
    let step : Except (Nat × Nat) Nat :=
      match cert.nc with
      | none => .ok ccount
      | some _ =>
        match x509_constraints_extract_constraints cert with
        | .error e => .error (e, i)
        | .ok (permitted, excluded) =>
          let ccount := ccount + permitted.length + excluded.length
          if ccount > X509_VERIFY_MAX_CHAIN_CONSTRAINTS then
            .error (X509_V_ERR_OUT_OF_MEM, i)
          else
            match x509_constraints_check names permitted excluded with
            | .error e => .error (e, i)
            | .ok () => .ok ccount
    match step with
    | .error e => .error e
    | .ok ccount =>
      match x509_constraints_extract_names names cert false with
      | .error e => .error (e, i)
      | .ok names' =>
        if names'.length > X509_VERIFY_MAX_CHAIN_NAMES then
          .error (X509_V_ERR_OUT_OF_MEM, i)
        else chain_go rest names' (i + 1) ccount

/-- x509_constraints_chain: success, or an error code together with the
chain depth at which it was detected.  A missing (NULL) chain is `none`. -/
def x509_constraints_chain (chain : Option (List X509Cert)) :
    Except (Nat × Nat) Unit :=
  match chain with
  | none => .error (X509_V_ERR_UNSPECIFIED, 0)
  | some certs =>
    if certs.length == 0 then .error (X509_V_ERR_UNSPECIFIED, 0)
    else if certs.length == 1 then .ok ()
    else
      match certs with
      | [] => .error (X509_V_ERR_UNSPECIFIED, 0)
      | leaf :: rest =>
        match x509_constraints_extract_names [] leaf true with
        | .error e => .error (e, 0)
        | .ok names => chain_go rest names 1 0

/-! ## Spec-side definitions

These follow the wording of the specification (not the C control flow) and
are compared with the embedded code by the refinement theorems below. -/

/-- A name passes one permitted/excluded check: it matches no excluded
entry, and either no permitted entry shares its type or it matches some
permitted entry. -/
def cname_passes (n : CName) (permitted excluded : List CName) : Bool :=
  !(excluded.any fun e => x509_constraints_match n e) &&
    (!(permitted.any fun p => p.type == n.type) ||
      permitted.any fun p => x509_constraints_match n p)

/-- Split a byte span at the first occurrence of `//`: the part before it
and the part after it. -/
def splitFirstAuthority : List Nat → Option (List Nat × List Nat)
  | [] => none
  | [_] => none
  | a :: b :: rest =>
    if a == 47 && b == 47 then some ([], rest)
    else
      match splitFirstAuthority (b :: rest) with
      | none => none
      | some (pre, auth) => some (a :: pre, auth)

/-- URI host extraction as the specification words it: at least 3 bytes, an
authority introduced by the first `//`, ASCII throughout the scanned range,
at most one `@` in the authority, the host being what follows the optional
userinfo `@` up to the first `:`, `/`, `?`, `#` or end of input, non-empty
and passing hostname validation. -/
def uriHostSpec (u : List Nat) : Option (List Nat) :=
  if u.length < 3 then none
  else
    match splitFirstAuthority u with
    | none => none
    | some (pre, auth) =>
      if !pre.all isAsciiB then none
      else if !(auth.takeWhile fun c => !isUriTermB c).all isAsciiB then none
      else if 2 ≤ (auth.takeWhile fun c => !isUriTermB c).count 64 then none
      else if ((if (auth.takeWhile fun c => !isUriTermB c).contains 64 then
          ((auth.takeWhile fun c => !isUriTermB c).dropWhile (· != 64)).tail
        else auth.takeWhile fun c => !isUriTermB c)).isEmpty then none
      else if !x509_constraints_valid_host
          ((if (auth.takeWhile fun c => !isUriTermB c).contains 64 then
            ((auth.takeWhile fun c => !isUriTermB c).dropWhile (· != 64)).tail
          else auth.takeWhile fun c => !isUriTermB c)) then none
      else some ((if (auth.takeWhile fun c => !isUriTermB c).contains 64 then
          ((auth.takeWhile fun c => !isUriTermB c).dropWhile (· != 64)).tail
        else auth.takeWhile fun c => !isUriTermB c))

/-! ## Theorems -/

/-- Claim C9: every byte span accepted by x509_constraints_valid_host is
also accepted by x509_constraints_valid_domain: the hostname validator only
adds rejections (leading dot, IP literals) on top of the domain rules. -/
theorem c9_valid_host_implies_valid_domain (s : List Nat)
    (h : x509_constraints_valid_host s = true) :
    x509_constraints_valid_domain s = true := by
  unfold x509_constraints_valid_host at h
  unfold x509_constraints_valid_domain
  split_ifs at h ⊢ <;> simp_all

theorem c9_witness :
    x509_constraints_valid_domain (bytes "www.example.com") = true :=
  c9_valid_host_implies_valid_domain _ (by decide)

/-- Claim C6: x509_constraints_chain rejects a missing chain and a chain of
length 0 and accepts any chain of length 1 outright; the single certificate
is arbitrary, so no name extraction or constraint checking can be involved
in that verdict. -/
theorem c6_chain_trivial_cases :
    x509_constraints_chain none = .error (X509_V_ERR_UNSPECIFIED, 0) ∧
    x509_constraints_chain (some []) = .error (X509_V_ERR_UNSPECIFIED, 0) ∧
    ∀ cert : X509Cert, x509_constraints_chain (some [cert]) = .ok () :=
  ⟨rfl, rfl, fun _ => rfl⟩

/-- Claim C7: whenever x509_constraints_parse_mailbox fails, the target name
record is returned untouched — no partially populated local/name/type
fields. -/
theorem c7_mailbox_fail_leaves_name_unmodified (candidate : Option (List Nat))
    (name : CName)
    (h : (x509_constraints_parse_mailbox candidate name).2 = false) :
    (x509_constraints_parse_mailbox candidate name).1 = name := by
  unfold x509_constraints_parse_mailbox at h ⊢
  cases candidate with
  | none => rfl
  | some cs =>
    by_cases hlen : cs.length > 64 + 255 + 1
    · simp [hlen]
    · simp only [hlen, if_false] at h ⊢
      cases hm : mailbox_go cs [] none none false false true with
      | none => simp [hm]
      | some v => simp [hm] at h

theorem c7_witness :
    (x509_constraints_parse_mailbox (some (bytes "user@")) {}).2 = false ∧
    (x509_constraints_parse_mailbox (some (bytes "user@")) {}).1 = ({} : CName) :=
  ⟨by decide, c7_mailbox_fail_leaves_name_unmodified _ _ (by decide)⟩

/-- The sandns comparison is exactly the case-insensitive suffix test. -/
theorem sandns_iff_suffix (d c : List Nat) :
    x509_constraints_sandns d c = true ↔
      (c.map tolowerB) <:+ (d.map tolowerB) := by
  unfold x509_constraints_sandns ncaseEq
  by_cases hc : c.length = 0
  · rw [List.length_eq_zero] at hc
    simp [hc]
  · by_cases hlt : d.length < c.length
    · simp only [beq_iff_eq, hc, hlt, if_true, if_false]
      constructor
      · intro h; exact absurd h (by simp [hc])
      · intro h
        have := h.length_le
        simp only [List.length_map] at this
        omega
    · simp only [beq_iff_eq, hc, hlt, if_false]
      push_neg at hlt
      constructor
      · intro h
        rw [← h, List.map_drop]
        exact List.drop_suffix _ _
      · intro h
        obtain ⟨t, ht⟩ := h
        have hlen : t.length = d.length - c.length := by
          have := congrArg List.length ht
          simp only [List.length_append, List.length_map] at this
          omega
        rw [List.map_drop, ← hlen, ← ht]
        exact List.drop_left t (c.map tolowerB)

/-- Claim C2: for DNS-type names and constraints, x509_constraints_match is
exactly: the constraint is empty, or its byte string is a case-insensitive
suffix of the name's byte string (a pure suffix test, with no label
boundary requirement). -/
theorem c2_dns_match_iff_ci_suffix (n c : CName)
    (hn : n.type = GEN_DNS) (hc : c.type = GEN_DNS) :
    x509_constraints_match n c = true ↔
      (c.name = [] ∨ (c.name.map tolowerB) <:+ (n.name.map tolowerB)) := by
  unfold x509_constraints_match
  rw [hn, hc]
  simp only [bne_self_eq_false, Bool.false_eq_true, if_false, beq_self_eq_true,
    if_true]
  rw [sandns_iff_suffix]
  constructor
  · exact Or.inr
  · rintro (h | h)
    · simp [h]
    · exact h

theorem c2_witness :
    x509_constraints_match
      { type := GEN_DNS, name := bytes "www.EXAMPLE.com" }
      { type := GEN_DNS, name := bytes "example.COM" } = true :=
  (c2_dns_match_iff_ci_suffix _ _ rfl rfl).mpr (Or.inr (by decide))

/-- Claim C3 counterexample: an email name and an email constraint with
byte-identical local parts and case-insensitively equal (but not
byte-identical) domains do NOT match: the code compares domains with a
case-sensitive strcmp in this branch. -/
theorem c3_counterexample :
    x509_constraints_match
        { type := GEN_EMAIL, localPart := some (bytes "a"),
          name := bytes "example.com" }
        { type := GEN_EMAIL, localPart := some (bytes "a"),
          name := bytes "EXAMPLE.COM" } = false ∧
      (bytes "example.com").map tolowerB = (bytes "EXAMPLE.COM").map tolowerB := by
  exact ⟨by decide, by decide⟩

/-- Claim C3 (amended): for an email-type name and an email-type constraint
whose local part is present, x509_constraints_match returns true exactly
when the local parts are byte-for-byte equal AND the domain parts are
byte-for-byte equal (both case-sensitive strcmp comparisons). -/
theorem c3_email_match_exact (n c : CName) (cl : List Nat)
    (hn : n.type = GEN_EMAIL) (hc : c.type = GEN_EMAIL)
    (hcl : c.localPart = some cl) :
    x509_constraints_match n c = true ↔
      (n.localPart = some cl ∧ n.name = c.name) := by
  unfold x509_constraints_match
  rw [hn, hc, hcl]
  simp [GEN_EMAIL, GEN_DNS, GEN_URI, GEN_IPADD]

theorem c3_witness :
    x509_constraints_match
      { type := GEN_EMAIL, localPart := some (bytes "bob"),
        name := bytes "example.com" }
      { type := GEN_EMAIL, localPart := some (bytes "bob"),
        name := bytes "example.com" } = true :=
  (c3_email_match_exact _ _ (bytes "bob") rfl rfl rfl).mpr ⟨rfl, rfl⟩

/-- A value below `2 ^ w` shifted right by `w - 1` is at most 1. -/
theorem shiftRight_pred_le_one (w v : Nat) (hv : v < 2 ^ w) :
    v >>> (w - 1) ≤ 1 := by
  rw [Nat.shiftRight_eq_div_pow]
  cases w with
  | zero =>
    interval_cases v
    simp
  | succ m =>
    simp only [Nat.succ_sub_one]
    have h2 : (0:Nat) < 2 ^ m := Nat.pos_pow_of_pos m (by norm_num)
    have : v / 2 ^ m < 2 := by
      rw [Nat.div_lt_iff_lt_mul h2]
      calc v < 2 ^ (m + 1) := hv
        _ = 2 * 2 ^ m := by rw [pow_succ]; ring
    omega

/-- The borrow word computed by bn_subw is 0 or 1. -/
theorem bn_subw_borrow_le_one (w a b : Nat) (ha : a < 2 ^ w) (hb : b < 2 ^ w) :
    (bn_subw w a b).1 ≤ 1 := by
  unfold bn_subw wnot
  have hp : (0:Nat) < 2 ^ w := Nat.pos_pow_of_pos w (by norm_num)
  have hn : 2 ^ w - 1 < 2 ^ w := Nat.sub_lt hp (by norm_num)
  have hna : a ^^^ (2 ^ w - 1) < 2 ^ w := Nat.xor_lt_two_pow ha hn
  exact shiftRight_pred_le_one w _
    (Nat.and_lt_two_pow _ (Nat.or_lt_two_pow hb hna))

/-- Claim C4 counterexample: with all inputs at the word maximum the carry
of bn_addw_addw is 2, and 0 - 255 - 2 on 8-bit words yields borrow 2:
neither is limited to 0 or 1. -/
theorem c4_counterexample :
    (bn_addw_addw 8 255 255 255).1 = 2 ∧ (bn_subw_subw 8 0 255 2).1 = 2 := by
  exact ⟨by decide, by decide⟩

/-- Claim C4 (amended): for word-sized inputs the carry returned by
bn_addw_addw and the borrow returned by bn_subw_subw are always 0, 1 or 2
(and 2 is attained, see the counterexample above). -/
theorem c4_carry_borrow_le_two (w a b c : Nat)
    (ha : a < 2 ^ w) (hb : b < 2 ^ w) (hc : c < 2 ^ w) :
    (bn_addw_addw w a b c).1 ≤ 2 ∧ (bn_subw_subw w a b c).1 ≤ 2 := by
  have hp : (0:Nat) < 2 ^ w := Nat.pos_pow_of_pos w (by norm_num)
  constructor
  · unfold bn_addw_addw bn_addw
    have h1 : (a + b) / 2 ^ w ≤ 1 := by
      have : (a + b) / 2 ^ w < 2 := (Nat.div_lt_iff_lt_mul hp).mpr (by omega)
      omega
    have h2 : ((a + b) % 2 ^ w + c) / 2 ^ w ≤ 1 := by
      have hm : (a + b) % 2 ^ w < 2 ^ w := Nat.mod_lt _ hp
      have : ((a + b) % 2 ^ w + c) / 2 ^ w < 2 :=
        (Nat.div_lt_iff_lt_mul hp).mpr (by omega)
      omega
    calc ((a + b) / 2 ^ w + ((a + b) % 2 ^ w + c) / 2 ^ w) % 2 ^ w
        ≤ (a + b) / 2 ^ w + ((a + b) % 2 ^ w + c) / 2 ^ w := Nat.mod_le _ _
      _ ≤ 2 := by omega
  · unfold bn_subw_subw
    have h1 : (bn_subw w a b).1 ≤ 1 := bn_subw_borrow_le_one w a b ha hb
    have h2 : (bn_subw w (bn_subw w a b).2 c).1 ≤ 1 := by
      refine bn_subw_borrow_le_one w _ c ?_ hc
      exact Nat.mod_lt _ hp
    calc ((bn_subw w a b).1 + (bn_subw w (bn_subw w a b).2 c).1) % 2 ^ w
        ≤ (bn_subw w a b).1 + (bn_subw w (bn_subw w a b).2 c).1 :=
          Nat.mod_le _ _
      _ ≤ 2 := by omega

theorem c4_witness :
    (bn_addw_addw 8 1 2 3).1 ≤ 2 ∧ (bn_subw_subw 8 1 2 3).1 ≤ 2 :=
  c4_carry_borrow_le_two 8 1 2 3 (by decide) (by decide) (by decide)

/-- The permitted loop's matched flag is just "some permitted entry
matches". -/
theorem permitted_scan_matched (n : CName) (P : List CName) :
    (permitted_scan n P).2 = P.any fun p => x509_constraints_match n p := by
  induction P with
  | nil => rfl
  | cons p ps ih =>
    by_cases h : x509_constraints_match n p = true <;>
      simp [permitted_scan, h, ih]

/-- When no permitted entry matches, the permitted loop's seen counter is
nonzero exactly when some permitted entry shares the name's type. -/
theorem permitted_scan_seen (n : CName) (P : List CName)
    (hm : (P.any fun p => x509_constraints_match n p) = false) :
    ((permitted_scan n P).1 != 0) = P.any fun p => p.type == n.type := by
  induction P with
  | nil => rfl
  | cons p ps ih =>
    simp only [List.any_cons, Bool.or_eq_false_iff] at hm
    obtain ⟨hp, hps⟩ := hm
    by_cases ht : p.type == n.type <;>
      simp [permitted_scan, hp, ht, ih hps]

/-- One step of x509_constraints_check, rephrased through the aggregate
any-predicates. -/
theorem check_cons (n : CName) (rest permitted excluded : List CName) :
    x509_constraints_check (n :: rest) permitted excluded =
      if excluded.any (fun e => x509_constraints_match n e) then
        .error X509_V_ERR_EXCLUDED_VIOLATION
      else if (permitted.any fun p => p.type == n.type) &&
          !(permitted.any fun p => x509_constraints_match n p) then
        .error X509_V_ERR_PERMITTED_VIOLATION
      else x509_constraints_check rest permitted excluded := by
  have hL : x509_constraints_check (n :: rest) permitted excluded =
      if excluded.any (fun e => x509_constraints_match n e) then
        .error X509_V_ERR_EXCLUDED_VIOLATION
      else if (permitted_scan n permitted).1 != 0 &&
          !(permitted_scan n permitted).2 then
        .error X509_V_ERR_PERMITTED_VIOLATION
      else x509_constraints_check rest permitted excluded := rfl
  rw [hL]
  have hcond : ((permitted_scan n permitted).1 != 0 &&
        !(permitted_scan n permitted).2) =
      ((permitted.any fun p => p.type == n.type) &&
        !(permitted.any fun p => x509_constraints_match n p)) := by
    by_cases hm : (permitted.any fun p => x509_constraints_match n p) = true
    · rw [permitted_scan_matched n permitted, hm]
      simp
    · simp only [Bool.not_eq_true] at hm
      rw [permitted_scan_matched n permitted, hm,
        permitted_scan_seen n permitted hm]
  rw [hcond]

/-- Claim C1 (amended): x509_constraints_check processes the accumulated
names in order.  It succeeds exactly when every name passes (matches no
excluded entry, and matches a permitted entry whenever a permitted entry of
its type exists).  On failure, the reported error is determined by the
FIRST failing name: an excluded violation if that name matches an excluded
entry, a permitted violation otherwise — so a later name matching an
excluded entry does not turn an earlier permitted violation into an
excluded-violation error. -/
theorem c1_check_characterization (names permitted excluded : List CName) :
    (x509_constraints_check names permitted excluded = .ok () ↔
      ∀ n ∈ names, cname_passes n permitted excluded = true) ∧
    ∀ e : Nat,
      x509_constraints_check names permitted excluded = .error e ↔
        ∃ pre n post, names = pre ++ n :: post ∧
          (∀ m ∈ pre, cname_passes m permitted excluded = true) ∧
          cname_passes n permitted excluded = false ∧
          e = (if excluded.any fun x => x509_constraints_match n x then
                X509_V_ERR_EXCLUDED_VIOLATION
              else X509_V_ERR_PERMITTED_VIOLATION) := by
  induction names with
  | nil =>
    constructor
    · simp [x509_constraints_check]
    · intro e
      constructor
      · intro h
        exact absurd h (by simp [x509_constraints_check])
      · rintro ⟨pre, m, post, habs, -⟩
        exact absurd habs (by simp)
  | cons n rest ih =>
    obtain ⟨ihOk, ihErr⟩ := ih
    rw [check_cons]
    by_cases he : (excluded.any fun e => x509_constraints_match n e) = true
    · rw [if_pos he]
      have hnp : cname_passes n permitted excluded = false := by
        unfold cname_passes
        rw [he]
        rfl
      constructor
      · constructor
        · intro h
          exact absurd h (by simp)
        · intro h
          have := h n (List.mem_cons_self n rest)
          rw [hnp] at this
          cases this
      · intro e
        constructor
        · intro h
          have heq : e = X509_V_ERR_EXCLUDED_VIOLATION := by
            cases h
            rfl
          exact ⟨[], n, rest, rfl, by simp, hnp, by rw [if_pos he, heq]⟩
        · rintro ⟨pre, m, post, hsplit, hpre, hmf, herr⟩
          cases pre with
          | nil =>
            simp only [List.nil_append, List.cons.injEq] at hsplit
            obtain ⟨h1, -⟩ := hsplit
            rw [← h1, if_pos he] at herr
            rw [herr]
          | cons q qs =>
            simp only [List.cons_append, List.cons.injEq] at hsplit
            obtain ⟨h1, -⟩ := hsplit
            have := hpre q (List.mem_cons_self q qs)
            rw [← h1, hnp] at this
            cases this
    · rw [if_neg he]
      simp only [Bool.not_eq_true] at he
      by_cases hf : ((permitted.any fun p => p.type == n.type) &&
          !(permitted.any fun p => x509_constraints_match n p)) = true
      · rw [if_pos hf]
        simp only [Bool.and_eq_true, Bool.not_eq_true'] at hf
        obtain ⟨ht, hm⟩ := hf
        have hnp : cname_passes n permitted excluded = false := by
          unfold cname_passes
          rw [he, ht, hm]
          rfl
        constructor
        · constructor
          · intro h
            exact absurd h (by simp)
          · intro h
            have := h n (List.mem_cons_self n rest)
            rw [hnp] at this
            cases this
        · intro e
          constructor
          · intro h
            have heq : e = X509_V_ERR_PERMITTED_VIOLATION := by
              cases h
              rfl
            exact ⟨[], n, rest, rfl, by simp, hnp, by rw [if_neg (by rw [he]; exact Bool.false_ne_true), heq]⟩
          · rintro ⟨pre, m, post, hsplit, hpre, hmf, herr⟩
            cases pre with
            | nil =>
              simp only [List.nil_append, List.cons.injEq] at hsplit
              obtain ⟨h1, -⟩ := hsplit
              rw [← h1, if_neg (by rw [he]; exact Bool.false_ne_true)] at herr
              rw [herr]
            | cons q qs =>
              simp only [List.cons_append, List.cons.injEq] at hsplit
              obtain ⟨h1, -⟩ := hsplit
              have := hpre q (List.mem_cons_self q qs)
              rw [← h1, hnp] at this
              cases this
      · rw [if_neg hf]
        have hnp : cname_passes n permitted excluded = true := by
          unfold cname_passes
          rw [he]
          cases ht : (permitted.any fun p => p.type == n.type) with
          | false => rfl
          | true =>
            cases hm : (permitted.any fun p => x509_constraints_match n p) with
            | true => rfl
            | false =>
              rw [ht, hm] at hf
              simp at hf
        constructor
        · rw [ihOk]
          constructor
          · intro h m hm
            rcases List.mem_cons.mp hm with hEq | hm'
            · rw [hEq]
              exact hnp
            · exact h m hm'
          · intro h m hm
            exact h m (List.mem_cons_of_mem n hm)
        · intro e
          rw [ihErr e]
          constructor
          · rintro ⟨pre, m, post, hsp, hpre, hmf, herr⟩
            refine ⟨n :: pre, m, post, by rw [hsp]; rfl, ?_, hmf, herr⟩
            intro q hq
            rcases List.mem_cons.mp hq with hEq | hq'
            · rw [hEq]
              exact hnp
            · exact hpre q hq'
          · rintro ⟨pre, m, post, hsp, hpre, hmf, herr⟩
            cases pre with
            | nil =>
              simp only [List.nil_append, List.cons.injEq] at hsp
              obtain ⟨h1, -⟩ := hsp
              rw [← h1, hnp] at hmf
              cases hmf
            | cons q qs =>
              simp only [List.cons_append, List.cons.injEq] at hsp
              obtain ⟨h1, h2⟩ := hsp
              exact ⟨qs, m, post, h2,
                fun r hr => hpre r (List.mem_cons_of_mem q hr), hmf, herr⟩

/-- Claim C1 counterexample: the first name fails its permitted check while
the second name matches an excluded entry; the check reports the
permitted-violation error, not the excluded-violation error the claim
requires whenever "any name matches any excluded entry". -/
theorem c1_counterexample :
    (x509_constraints_match { type := GEN_DNS, name := bytes "evil.com" }
      { type := GEN_DNS, name := bytes "evil.com" } = true) ∧
    x509_constraints_check
        [{ type := GEN_DNS, name := bytes "a.com" },
         { type := GEN_DNS, name := bytes "evil.com" }]
        [{ type := GEN_DNS, name := bytes "b.com" }]
        [{ type := GEN_DNS, name := bytes "evil.com" }] =
      .error X509_V_ERR_PERMITTED_VIOLATION := by
  exact ⟨by decide, rfl⟩

/-- Case bash for the carry recovery: with top bits and low-half carry each
0 or 1, the boolean majority formula computes the carry of the sum. -/
theorem carry_topbit_aux (x y z : Nat) (hx : x ≤ 1) (hy : y ≤ 1) (hz : z ≤ 1) :
    (((decide (x = 1) || decide (y = 1)) && !decide ((x + y + z) % 2 = 1)) ||
        (decide (x = 1) && decide (y = 1))).toNat = (x + y + z) / 2 := by
  interval_cases x <;> interval_cases y <;> interval_cases z <;> decide

/-- The carry trick of the C word primitives: for `w`-bit words `a`, `b`,
the expression `((a | b) & ~((a + b) mod 2^w) | (a & b)) >> (w - 1)` equals
the carry `(a + b) / 2^w`.  Stated for `w = m + 1`. -/
theorem carry_formula (m a b : Nat)
    (ha : a < 2 ^ (m + 1)) (hb : b < 2 ^ (m + 1)) :
    (((a ||| b) &&& wnot (m + 1) ((a + b) % 2 ^ (m + 1))) ||| (a &&& b)) >>> m
      = (a + b) / 2 ^ (m + 1) := by
  have hP : (0:Nat) < 2 ^ m := Nat.pos_pow_of_pos m (by norm_num)
  have h2P : (2:Nat) ^ (m + 1) = 2 ^ m * 2 := pow_succ 2 m
  set s := (a + b) % 2 ^ (m + 1) with hs_def
  have hs : s < 2 ^ (m + 1) := Nat.mod_lt _ (by positivity)
  have hone : 2 ^ (m + 1) - 1 < 2 ^ (m + 1) := Nat.sub_lt (by positivity) one_pos
  set V := ((a ||| b) &&& wnot (m + 1) s) ||| (a &&& b) with hV_def
  have hV : V < 2 ^ (m + 1) :=
    Nat.or_lt_two_pow (Nat.and_lt_two_pow _ (Nat.xor_lt_two_pow hs hone))
      (Nat.and_lt_two_pow _ hb)
  have hVdiv : V >>> m = (V.testBit m).toNat := by
    rw [Nat.shiftRight_eq_div_pow]
    have hlt : V / 2 ^ m < 2 := by
      rw [Nat.div_lt_iff_lt_mul hP]
      omega
    rw [Nat.testBit_to_div_mod]
    rcases Nat.le_one_iff_eq_zero_or_eq_one.mp (Nat.lt_succ_iff.mp hlt)
      with h | h <;> rw [h] <;> simp
  have htb : V.testBit m =
      (((a.testBit m || b.testBit m) && !(s.testBit m)) ||
        (a.testBit m && b.testBit m)) := by
    rw [hV_def]
    simp only [wnot, Nat.testBit_or, Nat.testBit_and, Nat.testBit_xor,
      Nat.testBit_two_pow_sub_one]
    have hmlt : decide (m < m + 1) = true := by simp
    rw [hmlt, Bool.xor_true]
  have hα : a / 2 ^ m ≤ 1 := by
    have : a / 2 ^ m < 2 := by
      rw [Nat.div_lt_iff_lt_mul hP]
      omega
    omega
  have hβ : b / 2 ^ m ≤ 1 := by
    have : b / 2 ^ m < 2 := by
      rw [Nat.div_lt_iff_lt_mul hP]
      omega
    omega
  have har : a % 2 ^ m < 2 ^ m := Nat.mod_lt _ hP
  have hbr : b % 2 ^ m < 2 ^ m := Nat.mod_lt _ hP
  have hγ : (a % 2 ^ m + b % 2 ^ m) / 2 ^ m ≤ 1 := by
    have : (a % 2 ^ m + b % 2 ^ m) / 2 ^ m < 2 := by
      rw [Nat.div_lt_iff_lt_mul hP]
      omega
    omega
  have hta : a.testBit m = decide (a / 2 ^ m = 1) := by
    rw [Nat.testBit_to_div_mod]
    rcases Nat.le_one_iff_eq_zero_or_eq_one.mp hα with h | h <;>
      rw [h] <;> simp
  have htbB : b.testBit m = decide (b / 2 ^ m = 1) := by
    rw [Nat.testBit_to_div_mod]
    rcases Nat.le_one_iff_eq_zero_or_eq_one.mp hβ with h | h <;>
      rw [h] <;> simp
  have hsum : a + b =
      2 ^ m * (a / 2 ^ m + b / 2 ^ m + (a % 2 ^ m + b % 2 ^ m) / 2 ^ m) +
        (a % 2 ^ m + b % 2 ^ m) % 2 ^ m := by
    have h1 := Nat.div_add_mod a (2 ^ m)
    have h2 := Nat.div_add_mod b (2 ^ m)
    have h3 := Nat.div_add_mod (a % 2 ^ m + b % 2 ^ m) (2 ^ m)
    zify at h1 h2 h3 ⊢
    linear_combination - h1 - h2 - h3
  have hexp : 2 ^ m * (a / 2 ^ m + b / 2 ^ m + (a % 2 ^ m + b % 2 ^ m) / 2 ^ m) +
        (a % 2 ^ m + b % 2 ^ m) % 2 ^ m =
      ((a % 2 ^ m + b % 2 ^ m) % 2 ^ m +
        2 ^ m * ((a / 2 ^ m + b / 2 ^ m + (a % 2 ^ m + b % 2 ^ m) / 2 ^ m) % 2)) +
        (2 ^ m * 2) *
          ((a / 2 ^ m + b / 2 ^ m + (a % 2 ^ m + b % 2 ^ m) / 2 ^ m) / 2) := by
    have hk2 := Nat.div_add_mod
      (a / 2 ^ m + b / 2 ^ m + (a % 2 ^ m + b % 2 ^ m) / 2 ^ m) 2
    zify at hk2 ⊢
    linear_combination (2:ℤ) ^ m * (- hk2)
  have hmu : 2 ^ m * ((a / 2 ^ m + b / 2 ^ m + (a % 2 ^ m + b % 2 ^ m) / 2 ^ m) % 2)
      ≤ 2 ^ m := by
    have : (a / 2 ^ m + b / 2 ^ m + (a % 2 ^ m + b % 2 ^ m) / 2 ^ m) % 2 ≤ 1 := by
      omega
    calc 2 ^ m * ((a / 2 ^ m + b / 2 ^ m + (a % 2 ^ m + b % 2 ^ m) / 2 ^ m) % 2)
        ≤ 2 ^ m * 1 := Nat.mul_le_mul_left _ this
      _ = 2 ^ m := Nat.mul_one _
  have hsmod : s = (a % 2 ^ m + b % 2 ^ m) % 2 ^ m +
      2 ^ m * ((a / 2 ^ m + b / 2 ^ m + (a % 2 ^ m + b % 2 ^ m) / 2 ^ m) % 2) := by
    rw [hs_def, hsum, hexp, h2P, Nat.add_mul_mod_self_left]
    exact Nat.mod_eq_of_lt (by omega)
  have hcarry : (a + b) / 2 ^ (m + 1) =
      (a / 2 ^ m + b / 2 ^ m + (a % 2 ^ m + b % 2 ^ m) / 2 ^ m) / 2 := by
    rw [hsum, hexp, h2P, Nat.add_mul_div_left _ _ (by positivity)]
    have : (a % 2 ^ m + b % 2 ^ m) % 2 ^ m +
        2 ^ m * ((a / 2 ^ m + b / 2 ^ m + (a % 2 ^ m + b % 2 ^ m) / 2 ^ m) % 2)
        < 2 ^ m * 2 := by omega
    rw [Nat.div_eq_of_lt this, Nat.zero_add]
  have hS : s.testBit m =
      decide ((a / 2 ^ m + b / 2 ^ m + (a % 2 ^ m + b % 2 ^ m) / 2 ^ m) % 2 = 1)
      := by
    rw [Nat.testBit_to_div_mod, hsmod, Nat.add_mul_div_left _ _ hP,
      Nat.div_eq_of_lt (Nat.mod_lt _ hP), Nat.zero_add,
      Nat.mod_eq_of_lt (Nat.mod_lt _ (by norm_num))]
  rw [hVdiv, htb, hta, htbB, hS, hcarry]
  exact carry_topbit_aux (a / 2 ^ m) (b / 2 ^ m)
    ((a % 2 ^ m + b % 2 ^ m) / 2 ^ m) hα hβ hγ

/-- The carry formula of carry_formula, restated at width `wd` with the
shift written `wd - 1` as in the C sources. -/
theorem carry_formula_width (wd u v : Nat) (hwd : 1 ≤ wd)
    (hu : u < 2 ^ wd) (hv : v < 2 ^ wd) :
    (((u ||| v) &&& wnot wd ((u + v) % 2 ^ wd)) ||| (u &&& v)) >>> (wd - 1)
      = (u + v) / 2 ^ wd := by
  obtain ⟨m, rfl⟩ : ∃ m, wd = m + 1 := ⟨wd - 1, by omega⟩
  simp only [Nat.add_sub_cancel]
  exact carry_formula m u v hu hv

/-- The masked carry variant of bn_addw agrees with the BN_LLONG variant on
word-sized inputs. -/
theorem bn_addw_masked_eq (w a b : Nat) (hw : 1 ≤ w)
    (ha : a < 2 ^ w) (hb : b < 2 ^ w) :
    bn_addw_masked w a b = bn_addw w a b := by
  show ((((a ||| b) &&& wnot w ((a + b) % 2 ^ w)) ||| (a &&& b)) >>> (w - 1),
      (a + b) % 2 ^ w) = bn_addw w a b
  rw [carry_formula_width w a b hw ha hb]
  rfl

/-- The branch-free half-word decomposition computes the same double-word
product as the native double-width multiply. -/
theorem bn_umul_hilo_halfword_eq (hw a b : Nat) (hw1 : 1 ≤ hw)
    (ha : a < 2 ^ (2 * hw)) (hb : b < 2 ^ (2 * hw)) :
    bn_umul_hilo_halfword hw a b = bn_umul_hilo (2 * hw) a b := by
  have hP : (0:Nat) < 2 ^ hw := Nat.pos_pow_of_pos hw (by norm_num)
  have hP2 : (2:Nat) ≤ 2 ^ hw := by
    calc (2:Nat) = 2 ^ 1 := (pow_one 2).symm
      _ ≤ 2 ^ hw := Nat.pow_le_pow_right (by norm_num) hw1
  have hM : (2:Nat) ^ (2 * hw) = 2 ^ hw * 2 ^ hw := by
    rw [two_mul, pow_add]
  have hMpos : (0:Nat) < 2 ^ (2 * hw) := by positivity
  unfold bn_umul_hilo_halfword bn_umul_hilo
  simp only [Nat.and_pow_two_sub_one_eq_mod, Nat.shiftLeft_eq]
  rw [Nat.shiftRight_eq_div_pow a hw, Nat.shiftRight_eq_div_pow b hw]
  set AH := a / 2 ^ hw with hAHdef
  set AL := a % 2 ^ hw with hALdef
  set BH := b / 2 ^ hw with hBHdef
  set BL := b % 2 ^ hw with hBLdef
  have hAHlt : AH < 2 ^ hw := by
    rw [hAHdef, Nat.div_lt_iff_lt_mul hP, ← hM]
    exact ha
  have hBHlt : BH < 2 ^ hw := by
    rw [hBHdef, Nat.div_lt_iff_lt_mul hP, ← hM]
    exact hb
  have hALlt : AL < 2 ^ hw := Nat.mod_lt _ hP
  have hBLlt : BL < 2 ^ hw := Nat.mod_lt _ hP
  have hQ : (2 ^ hw - 1) * (2 ^ hw - 1) + 2 * 2 ^ hw = 2 ^ hw * 2 ^ hw + 1 := by
    have hP1 : (1:Nat) ≤ 2 ^ hw := hP
    zify [hP1]
    ring
  have hA : AH * BH ≤ (2 ^ hw - 1) * (2 ^ hw - 1) :=
    Nat.mul_le_mul (by omega) (by omega)
  have hX : AH * BL ≤ (2 ^ hw - 1) * (2 ^ hw - 1) :=
    Nat.mul_le_mul (by omega) (by omega)
  have hY : BH * AL ≤ (2 ^ hw - 1) * (2 ^ hw - 1) :=
    Nat.mul_le_mul (by omega) (by omega)
  have hL : AL * BL ≤ (2 ^ hw - 1) * (2 ^ hw - 1) :=
    Nat.mul_le_mul (by omega) (by omega)
  -- the four products fit in a double word
  have hm1 : AH * BH % 2 ^ (2 * hw) = AH * BH := Nat.mod_eq_of_lt (by omega)
  have hm2 : AL * BL % 2 ^ (2 * hw) = AL * BL := Nat.mod_eq_of_lt (by omega)
  have hm3 : AH * BL % 2 ^ (2 * hw) = AH * BL := Nat.mod_eq_of_lt (by omega)
  have hm4 : BH * AL % 2 ^ (2 * hw) = BH * AL := Nat.mod_eq_of_lt (by omega)
  rw [hm1, hm2, hm3, hm4]
  -- the shifted cross terms keep only their low halves
  have hs1 : AH * BL * 2 ^ hw % 2 ^ (2 * hw) = AH * BL % 2 ^ hw * 2 ^ hw := by
    rw [hM, Nat.mul_mod_mul_right]
  have hs2 : BH * AL * 2 ^ hw % 2 ^ (2 * hw) = BH * AL % 2 ^ hw * 2 ^ hw := by
    rw [hM, Nat.mul_mod_mul_right]
  rw [hs1, hs2, Nat.shiftRight_eq_div_pow (AH * BL) hw,
    Nat.shiftRight_eq_div_pow (BH * AL) hw]
  -- cross-term high halves are at most 2^hw - 2
  have hDb : AH * BL / 2 ^ hw + 2 ≤ 2 ^ hw := by
    have h1 : AH * BL < (2 ^ hw - 1) * 2 ^ hw :=
      lt_of_le_of_lt hX (mul_lt_mul_of_pos_left (by omega) (by omega))
    have h2 : AH * BL / 2 ^ hw < 2 ^ hw - 1 :=
      (Nat.div_lt_iff_lt_mul hP).mpr h1
    omega
  have hEb : BH * AL / 2 ^ hw + 2 ≤ 2 ^ hw := by
    have h1 : BH * AL < (2 ^ hw - 1) * 2 ^ hw :=
      lt_of_le_of_lt hY (mul_lt_mul_of_pos_left (by omega) (by omega))
    have h2 : BH * AL / 2 ^ hw < 2 ^ hw - 1 :=
      (Nat.div_lt_iff_lt_mul hP).mpr h1
    omega
  -- shifted low halves are below the double-word modulus
  have hv1 : AH * BL % 2 ^ hw * 2 ^ hw < 2 ^ (2 * hw) := by
    rw [hM]
    exact Nat.mul_lt_mul_of_lt_of_le (Nat.mod_lt _ hP) (le_refl _) hP
  have hv2 : BH * AL % 2 ^ hw * 2 ^ hw < 2 ^ (2 * hw) := by
    rw [hM]
    exact Nat.mul_lt_mul_of_lt_of_le (Nat.mod_lt _ hP) (le_refl _) hP
  -- first accumulation into the high word does not wrap
  have hm5 : (AH * BH + AH * BL / 2 ^ hw) % 2 ^ (2 * hw)
      = AH * BH + AH * BL / 2 ^ hw := Nat.mod_eq_of_lt (by omega)
  rw [hm5]
  -- first carry
  rw [carry_formula_width (2 * hw) (AL * BL) (AH * BL % 2 ^ hw * 2 ^ hw)
    (by omega) (by omega) hv1]
  have hc1 : (AL * BL + AH * BL % 2 ^ hw * 2 ^ hw) / 2 ^ (2 * hw) ≤ 1 := by
    have : (AL * BL + AH * BL % 2 ^ hw * 2 ^ hw) / 2 ^ (2 * hw) < 2 :=
      (Nat.div_lt_iff_lt_mul hMpos).mpr (by omega)
    omega
  have hm6 : (AH * BH + AH * BL / 2 ^ hw +
        (AL * BL + AH * BL % 2 ^ hw * 2 ^ hw) / 2 ^ (2 * hw)) % 2 ^ (2 * hw)
      = AH * BH + AH * BL / 2 ^ hw +
        (AL * BL + AH * BL % 2 ^ hw * 2 ^ hw) / 2 ^ (2 * hw) :=
    Nat.mod_eq_of_lt (by omega)
  rw [hm6]
  -- second accumulation does not wrap
  have hm7 : (AH * BH + AH * BL / 2 ^ hw +
        (AL * BL + AH * BL % 2 ^ hw * 2 ^ hw) / 2 ^ (2 * hw) +
        BH * AL / 2 ^ hw) % 2 ^ (2 * hw)
      = AH * BH + AH * BL / 2 ^ hw +
        (AL * BL + AH * BL % 2 ^ hw * 2 ^ hw) / 2 ^ (2 * hw) +
        BH * AL / 2 ^ hw := Nat.mod_eq_of_lt (by omega)
  rw [hm7]
  -- second carry
  rw [carry_formula_width (2 * hw)
    ((AL * BL + AH * BL % 2 ^ hw * 2 ^ hw) % 2 ^ (2 * hw))
    (BH * AL % 2 ^ hw * 2 ^ hw) (by omega) (Nat.mod_lt _ hMpos) hv2]
  have hl1 : (AL * BL + AH * BL % 2 ^ hw * 2 ^ hw) % 2 ^ (2 * hw) < 2 ^ (2 * hw)
    := Nat.mod_lt _ hMpos
  have hc2 : ((AL * BL + AH * BL % 2 ^ hw * 2 ^ hw) % 2 ^ (2 * hw) +
        BH * AL % 2 ^ hw * 2 ^ hw) / 2 ^ (2 * hw) ≤ 1 := by
    have : ((AL * BL + AH * BL % 2 ^ hw * 2 ^ hw) % 2 ^ (2 * hw) +
          BH * AL % 2 ^ hw * 2 ^ hw) / 2 ^ (2 * hw) < 2 :=
      (Nat.div_lt_iff_lt_mul hMpos).mpr (by omega)
    omega
  have hm8 : (AH * BH + AH * BL / 2 ^ hw +
        (AL * BL + AH * BL % 2 ^ hw * 2 ^ hw) / 2 ^ (2 * hw) +
        BH * AL / 2 ^ hw +
        ((AL * BL + AH * BL % 2 ^ hw * 2 ^ hw) % 2 ^ (2 * hw) +
          BH * AL % 2 ^ hw * 2 ^ hw) / 2 ^ (2 * hw)) % 2 ^ (2 * hw)
      = AH * BH + AH * BL / 2 ^ hw +
        (AL * BL + AH * BL % 2 ^ hw * 2 ^ hw) / 2 ^ (2 * hw) +
        BH * AL / 2 ^ hw +
        ((AL * BL + AH * BL % 2 ^ hw * 2 ^ hw) % 2 ^ (2 * hw) +
          BH * AL % 2 ^ hw * 2 ^ hw) / 2 ^ (2 * hw) :=
    Nat.mod_eq_of_lt (by omega)
  rw [hm8]
  -- exact double-word value of the product
  have hab : a * b = 2 ^ (2 * hw) * (AH * BH) + 2 ^ hw * (AH * BL) +
      2 ^ hw * (BH * AL) + AL * BL := by
    conv_lhs => rw [← Nat.div_add_mod a (2 ^ hw), ← Nat.div_add_mod b (2 ^ hw)]
    rw [← hAHdef, ← hALdef, ← hBHdef, ← hBLdef, hM]
    ring
  have he3 : 2 ^ (2 * hw) * (AH * BL / 2 ^ hw) + AH * BL % 2 ^ hw * 2 ^ hw
      = 2 ^ hw * (AH * BL) := by
    conv_rhs => rw [← Nat.div_add_mod (AH * BL) (2 ^ hw)]
    rw [hM]
    ring
  have he4 : 2 ^ (2 * hw) * (BH * AL / 2 ^ hw) + BH * AL % 2 ^ hw * 2 ^ hw
      = 2 ^ hw * (BH * AL) := by
    conv_rhs => rw [← Nat.div_add_mod (BH * AL) (2 ^ hw)]
    rw [hM]
    ring
  have e1 := Nat.div_add_mod (AL * BL + AH * BL % 2 ^ hw * 2 ^ hw) (2 ^ (2 * hw))
  have e2 := Nat.div_add_mod
    ((AL * BL + AH * BL % 2 ^ hw * 2 ^ hw) % 2 ^ (2 * hw) +
      BH * AL % 2 ^ hw * 2 ^ hw) (2 ^ (2 * hw))
  have hexp : 2 ^ (2 * hw) * (AH * BH + AH * BL / 2 ^ hw +
        (AL * BL + AH * BL % 2 ^ hw * 2 ^ hw) / 2 ^ (2 * hw) +
        BH * AL / 2 ^ hw +
        ((AL * BL + AH * BL % 2 ^ hw * 2 ^ hw) % 2 ^ (2 * hw) +
          BH * AL % 2 ^ hw * 2 ^ hw) / 2 ^ (2 * hw))
      = 2 ^ (2 * hw) * (AH * BH) + 2 ^ (2 * hw) * (AH * BL / 2 ^ hw) +
        2 ^ (2 * hw) * ((AL * BL + AH * BL % 2 ^ hw * 2 ^ hw) / 2 ^ (2 * hw)) +
        2 ^ (2 * hw) * (BH * AL / 2 ^ hw) +
        2 ^ (2 * hw) *
          (((AL * BL + AH * BL % 2 ^ hw * 2 ^ hw) % 2 ^ (2 * hw) +
            BH * AL % 2 ^ hw * 2 ^ hw) / 2 ^ (2 * hw)) := by
    ring
  have hID : 2 ^ (2 * hw) * (AH * BH + AH * BL / 2 ^ hw +
        (AL * BL + AH * BL % 2 ^ hw * 2 ^ hw) / 2 ^ (2 * hw) +
        BH * AL / 2 ^ hw +
        ((AL * BL + AH * BL % 2 ^ hw * 2 ^ hw) % 2 ^ (2 * hw) +
          BH * AL % 2 ^ hw * 2 ^ hw) / 2 ^ (2 * hw)) +
      ((AL * BL + AH * BL % 2 ^ hw * 2 ^ hw) % 2 ^ (2 * hw) +
        BH * AL % 2 ^ hw * 2 ^ hw) % 2 ^ (2 * hw) = a * b := by
    omega
  have hFH : AH * BH + AH * BL / 2 ^ hw +
      (AL * BL + AH * BL % 2 ^ hw * 2 ^ hw) / 2 ^ (2 * hw) +
      BH * AL / 2 ^ hw +
      ((AL * BL + AH * BL % 2 ^ hw * 2 ^ hw) % 2 ^ (2 * hw) +
        BH * AL % 2 ^ hw * 2 ^ hw) / 2 ^ (2 * hw) < 2 ^ (2 * hw) := by omega
  have hFL : ((AL * BL + AH * BL % 2 ^ hw * 2 ^ hw) % 2 ^ (2 * hw) +
      BH * AL % 2 ^ hw * 2 ^ hw) % 2 ^ (2 * hw) < 2 ^ (2 * hw) :=
    Nat.mod_lt _ hMpos
  refine Prod.ext ?_ ?_
  · show _ = a * b / 2 ^ (2 * hw)
    rw [← hID, Nat.mul_add_div hMpos, Nat.div_eq_of_lt hFL, Nat.add_zero]
  · show _ = a * b % 2 ^ (2 * hw)
    rw [← hID, Nat.mul_add_mod, Nat.mod_eq_of_lt hFL]

/-- Claim C8: both bn_umul_hilo implementations are commutative and return
(hi, lo) with hi * 2^W + lo == a * b exactly, for all word pairs below the
word modulus (the word size W = 2 * hw being split into half-words for the
branch-free variant). -/
theorem c8_umul_hilo_correct (hw a b : Nat) (hw1 : 1 ≤ hw)
    (ha : a < 2 ^ (2 * hw)) (hb : b < 2 ^ (2 * hw)) :
    (bn_umul_hilo (2 * hw) a b = bn_umul_hilo (2 * hw) b a ∧
      (bn_umul_hilo (2 * hw) a b).1 * 2 ^ (2 * hw) +
        (bn_umul_hilo (2 * hw) a b).2 = a * b) ∧
    (bn_umul_hilo_halfword hw a b = bn_umul_hilo_halfword hw b a ∧
      (bn_umul_hilo_halfword hw a b).1 * 2 ^ (2 * hw) +
        (bn_umul_hilo_halfword hw a b).2 = a * b) := by
  have hll : (bn_umul_hilo (2 * hw) a b).1 * 2 ^ (2 * hw) +
      (bn_umul_hilo (2 * hw) a b).2 = a * b := by
    unfold bn_umul_hilo
    rw [Nat.mul_comm (a * b / 2 ^ (2 * hw)) (2 ^ (2 * hw))]
    exact Nat.div_add_mod _ _
  have hcomm : bn_umul_hilo (2 * hw) a b = bn_umul_hilo (2 * hw) b a := by
    unfold bn_umul_hilo
    rw [Nat.mul_comm a b]
  refine ⟨⟨hcomm, hll⟩, ?_, ?_⟩
  · rw [bn_umul_hilo_halfword_eq hw a b hw1 ha hb,
      bn_umul_hilo_halfword_eq hw b a hw1 hb ha]
    exact hcomm
  · rw [bn_umul_hilo_halfword_eq hw a b hw1 ha hb]
    exact hll

theorem c8_witness :
    bn_umul_hilo_halfword 4 255 255 = bn_umul_hilo_halfword 4 255 255 ∧
    (bn_umul_hilo_halfword 4 255 255).1 * 2 ^ (2 * 4) +
      (bn_umul_hilo_halfword 4 255 255).2 = 255 * 255 :=
  ⟨(c8_umul_hilo_correct 4 255 255 (by norm_num) (by norm_num)
      (by norm_num)).2.1,
    (c8_umul_hilo_correct 4 255 255 (by norm_num) (by norm_num)
      (by norm_num)).2.2⟩

/-- Claim C10: bn_mulw_addw_addw returns (r1, r0) with
r1 * 2^w + r0 == a * b + c + d exactly: the fused multiply plus two word
accumulations never overflows the double word. -/
theorem c10_mulw_addw_addw_exact (w a b c d : Nat) (ha : a < 2 ^ w)
    (hb : b < 2 ^ w) (hc : c < 2 ^ w) (hd : d < 2 ^ w) :
    (bn_mulw_addw_addw w a b c d).1 * 2 ^ w + (bn_mulw_addw_addw w a b c d).2
      = a * b + c + d := by
  have hMpos : (0:Nat) < 2 ^ w := Nat.pos_pow_of_pos w (by norm_num)
  have hQ : (2 ^ w - 1) * (2 ^ w - 1) + 2 * 2 ^ w = 2 ^ w * 2 ^ w + 1 := by
    have h1 : (1:Nat) ≤ 2 ^ w := hMpos
    zify [h1]
    ring
  have hab : a * b ≤ (2 ^ w - 1) * (2 ^ w - 1) :=
    Nat.mul_le_mul (by omega) (by omega)
  have e0 := Nat.div_add_mod (a * b) (2 ^ w)
  have e1 := Nat.div_add_mod (a * b % 2 ^ w + c) (2 ^ w)
  have e2 := Nat.div_add_mod ((a * b % 2 ^ w + c) % 2 ^ w + d) (2 ^ w)
  have hr1 : a * b % 2 ^ w < 2 ^ w := Nat.mod_lt _ hMpos
  have hr2 : (a * b % 2 ^ w + c) % 2 ^ w < 2 ^ w := Nat.mod_lt _ hMpos
  have hr3 : ((a * b % 2 ^ w + c) % 2 ^ w + d) % 2 ^ w < 2 ^ w :=
    Nat.mod_lt _ hMpos
  have hx1 : (a * b / 2 ^ w + (a * b % 2 ^ w + c) / 2 ^ w) * 2 ^ w
      = 2 ^ w * (a * b / 2 ^ w) + 2 ^ w * ((a * b % 2 ^ w + c) / 2 ^ w) := by
    ring
  have h1 : (a * b / 2 ^ w + (a * b % 2 ^ w + c) / 2 ^ w) * 2 ^ w +
      (a * b % 2 ^ w + c) % 2 ^ w = a * b + c := by omega
  have hub1 : a * b + c < 2 ^ w * 2 ^ w := by omega
  have hq1 : a * b / 2 ^ w + (a * b % 2 ^ w + c) / 2 ^ w < 2 ^ w := by
    exact Nat.lt_of_mul_lt_mul_right
      (calc (a * b / 2 ^ w + (a * b % 2 ^ w + c) / 2 ^ w) * 2 ^ w
          ≤ a * b + c := by omega
        _ < 2 ^ w * 2 ^ w := hub1)
  have hmod1 : (a * b / 2 ^ w + (a * b % 2 ^ w + c) / 2 ^ w) % 2 ^ w
      = a * b / 2 ^ w + (a * b % 2 ^ w + c) / 2 ^ w := Nat.mod_eq_of_lt hq1
  have hx2 : (a * b / 2 ^ w + (a * b % 2 ^ w + c) / 2 ^ w +
        ((a * b % 2 ^ w + c) % 2 ^ w + d) / 2 ^ w) * 2 ^ w
      = (a * b / 2 ^ w + (a * b % 2 ^ w + c) / 2 ^ w) * 2 ^ w +
        2 ^ w * (((a * b % 2 ^ w + c) % 2 ^ w + d) / 2 ^ w) := by
    ring
  have h2 : (a * b / 2 ^ w + (a * b % 2 ^ w + c) / 2 ^ w +
        ((a * b % 2 ^ w + c) % 2 ^ w + d) / 2 ^ w) * 2 ^ w +
      ((a * b % 2 ^ w + c) % 2 ^ w + d) % 2 ^ w = a * b + c + d := by omega
  have hub2 : a * b + c + d < 2 ^ w * 2 ^ w := by omega
  have hq2 : a * b / 2 ^ w + (a * b % 2 ^ w + c) / 2 ^ w +
      ((a * b % 2 ^ w + c) % 2 ^ w + d) / 2 ^ w < 2 ^ w := by
    exact Nat.lt_of_mul_lt_mul_right
      (calc (a * b / 2 ^ w + (a * b % 2 ^ w + c) / 2 ^ w +
            ((a * b % 2 ^ w + c) % 2 ^ w + d) / 2 ^ w) * 2 ^ w
          ≤ a * b + c + d := by omega
        _ < 2 ^ w * 2 ^ w := hub2)
  show ((a * b / 2 ^ w + (a * b % 2 ^ w + c) / 2 ^ w) % 2 ^ w +
      ((a * b % 2 ^ w + c) % 2 ^ w + d) / 2 ^ w) % 2 ^ w * 2 ^ w +
      ((a * b % 2 ^ w + c) % 2 ^ w + d) % 2 ^ w = a * b + c + d
  rw [hmod1, Nat.mod_eq_of_lt hq2]
  exact h2

theorem c10_witness :
    (bn_mulw_addw_addw 8 255 255 255 255).1 * 2 ^ 8 +
      (bn_mulw_addw_addw 8 255 255 255 255).2 = 255 * 255 + 255 + 255 :=
  c10_mulw_addw_addw_exact 8 255 255 255 255 (by norm_num) (by norm_num)
    (by norm_num) (by norm_num)


/-! ### C5: equivalence of the URI host extraction with its specification -/

theorem takeWhile_append_all (q : Nat → Bool) :
    ∀ p l : List Nat, p.all q = true →
      (p ++ l).takeWhile q = p ++ l.takeWhile q
  | [], l, _ => rfl
  | c :: p, l, h => by
    simp only [List.all_cons, Bool.and_eq_true] at h
    simp only [List.cons_append, List.takeWhile_cons, h.1, if_true]
    rw [takeWhile_append_all q p l h.2]

theorem dropWhile_append_all (q : Nat → Bool) :
    ∀ p l : List Nat, p.all q = true →
      (p ++ l).dropWhile q = l.dropWhile q
  | [], l, _ => rfl
  | c :: p, l, h => by
    simp only [List.all_cons, Bool.and_eq_true] at h
    simp only [List.cons_append, List.dropWhile_cons, h.1, if_true]
    exact dropWhile_append_all q p l h.2

theorem take_takeWhile_length (q : Nat → Bool) (l : List Nat) :
    l.take (l.takeWhile q).length = l.takeWhile q := by
  obtain ⟨t, ht⟩ := l.takeWhile_prefix q
  have h2 := List.take_left (l.takeWhile q) t
  rw [ht] at h2
  exact h2

theorem uri_find_authority_eq : ∀ u : List Nat,
    uri_find_authority u =
      (match splitFirstAuthority u with
      | none => none
      | some (pre, auth) => if pre.all isAsciiB then some auth else none)
  | [] => rfl
  | [_] => rfl
  | a :: b :: rest => by
    have ih := uri_find_authority_eq (b :: rest)
    simp only [uri_find_authority, splitFirstAuthority]
    by_cases h47 : (a == 47 && b == 47) = true
    · have hA : isAsciiB a = true := by
        have := (Bool.and_eq_true _ _).mp h47
        have ha47 : a = 47 := by simpa using this.1
        rw [ha47]
        rfl
      simp [h47, hA]
    · by_cases hA : isAsciiB a = true
      · simp only [hA, Bool.not_true, Bool.false_eq_true, if_false,
          h47, ih]
        cases hsp : splitFirstAuthority (b :: rest) with
        | none => rfl
        | some pa =>
          obtain ⟨pre, auth⟩ := pa
          simp [hA]
      · simp only [hA, Bool.not_false, Bool.false_eq_true, if_true, h47]
        cases hsp : splitFirstAuthority (b :: rest) with
        | none => rfl
        | some pa =>
          obtain ⟨pre, auth⟩ := pa
          simp [hA]

theorem uri_scan_cons (c : Nat) (rest : List Nat) (host : Option (List Nat))
    (n : Nat) :
    uri_scan (c :: rest) host n =
      if !isAsciiB c then none
      else if c == 64 then
        (match host with
        | some _ => some (host, 0)
        | none => uri_scan rest (some rest) 0)
      else if isUriTermB c then some (host, n)
      else uri_scan rest host (n + 1) := rfl

theorem term_ascii (c : Nat) (h : isUriTermB c = true) : isAsciiB c = true := by
  unfold isUriTermB at h
  simp only [Bool.or_eq_true, beq_iff_eq] at h
  unfold isAsciiB
  simp only [decide_eq_true_eq]
  rcases h with ((h | h) | h) | h <;> omega

theorem term_not_64 (c : Nat) (h : isUriTermB c = true) : (c == 64) = false := by
  unfold isUriTermB at h
  simp only [Bool.or_eq_true, beq_iff_eq] at h
  have : c ≠ 64 := by omega
  simp [this]

theorem uri_scan_no_at : ∀ (l : List Nat) (host : Option (List Nat)) (n : Nat),
    (l.takeWhile fun c => !isUriTermB c).contains 64 = false →
      uri_scan l host n =
        (if (l.takeWhile fun c => !isUriTermB c).all isAsciiB then
          some (host, n + (l.takeWhile fun c => !isUriTermB c).length)
        else none)
  | [], host, n, _ => by simp [uri_scan]
  | c :: rest, host, n, hno => by
    rw [uri_scan_cons]
    by_cases hterm : isUriTermB c = true
    · have hA := term_ascii c hterm
      have hne := term_not_64 c hterm
      have h1 : ¬((!isAsciiB c) = true) := by simp [hA]
      have h2 : ¬((c == 64) = true) := by simp [hne]
      have h3 : ¬((!isUriTermB c) = true) := by simp [hterm]
      rw [if_neg h1, if_neg h2, if_pos hterm, List.takeWhile_cons, if_neg h3]
      simp
    · have hterm' : (!isUriTermB c) = true := by simp [hterm]
      rw [List.takeWhile_cons, if_pos hterm'] at hno ⊢
      simp only [List.contains_cons, Bool.or_eq_false_iff] at hno
      obtain ⟨h64, hno'⟩ := hno
      have hne : (c == 64) = false := by
        by_cases h : c = 64
        · rw [h] at h64
          simp at h64
        · simp [h]
      have h2 : ¬((c == 64) = true) := by simp [hne]
      by_cases hA : isAsciiB c = true
      · have h1 : ¬((!isAsciiB c) = true) := by simp [hA]
        rw [if_neg h1, if_neg h2, if_neg hterm,
          uri_scan_no_at rest host (n + 1) hno']
        by_cases hall : (rest.takeWhile fun c => !isUriTermB c).all isAsciiB
          = true
        · have h4 : ((c :: rest.takeWhile fun c => !isUriTermB c).all isAsciiB)
              = true := by simp [hA, hall]
          rw [if_pos hall, if_pos h4, List.length_cons]
          congr 2
          omega
        · have h4 : ¬(((c :: rest.takeWhile fun c => !isUriTermB c).all
              isAsciiB) = true) := by
            simp only [List.all_cons, Bool.and_eq_true, not_and]
            intro
            simp [hall]
          rw [if_neg (by simp [hall] : ¬((rest.takeWhile fun c => !isUriTermB c).all isAsciiB = true)), if_neg h4]
      · have h1 : ((!isAsciiB c) = true) := by
          rw [Bool.not_eq_true] at hA
          simp [hA]
        have h4 : ¬(((c :: rest.takeWhile fun c => !isUriTermB c).all
            isAsciiB) = true) := by
          simp only [List.all_cons, Bool.and_eq_true, not_and]
          intro hx
          rw [Bool.not_eq_true] at hA
          rw [hA] at hx
          cases hx
        rw [if_pos h1, if_neg h4]

theorem uri_scan_at : ∀ (l : List Nat) (n : Nat),
    (l.takeWhile fun c => !isUriTermB c).contains 64 = true →
      uri_scan l none n =
        (if (l.takeWhile (· != 64)).all isAsciiB then
          uri_scan ((l.dropWhile (· != 64)).tail)
            (some ((l.dropWhile (· != 64)).tail)) 0
        else none)
  | [], n, hat => by cases hat
  | c :: rest, n, hat => by
    rw [uri_scan_cons]
    by_cases h64 : (c == 64) = true
    · have hc : c = 64 := by simpa using h64
      have hA : isAsciiB c = true := by
        rw [hc]
        rfl
      have h1 : ¬((!isAsciiB c) = true) := by simp [hA]
      have htk : (c :: rest).takeWhile (· != 64) = [] := by
        rw [List.takeWhile_cons, if_neg (by simp [hc])]
      have hdr : (c :: rest).dropWhile (· != 64) = c :: rest := by
        rw [List.dropWhile_cons, if_neg (by simp [hc])]
      rw [if_neg h1, if_pos h64, htk, hdr]
      simp
    · by_cases hterm : isUriTermB c = true
      · rw [List.takeWhile_cons, if_neg (by simp [hterm] :
          ¬((!isUriTermB c) = true))] at hat
        cases hat
      · have hterm' : (!isUriTermB c) = true := by simp [hterm]
        rw [List.takeWhile_cons, if_pos hterm'] at hat
        simp only [List.contains_cons, Bool.or_eq_true] at hat
        have hat' : (rest.takeWhile fun c => !isUriTermB c).contains 64
            = true := by
          rcases hat with h | h
          · exfalso
            have : c = 64 := by
              have h2 : (64:Nat) = c := by simpa using h
              omega
            rw [this] at h64
            simp at h64
          · exact h
        have hne : c ≠ 64 := by
          intro h
          rw [h] at h64
          simp at h64
        have htk : (c :: rest).takeWhile (· != 64)
            = c :: rest.takeWhile (· != 64) := by
          rw [List.takeWhile_cons, if_pos (by simp [hne])]
        have hdr : (c :: rest).dropWhile (· != 64)
            = rest.dropWhile (· != 64) := by
          rw [List.dropWhile_cons, if_pos (by simp [hne])]
        by_cases hA : isAsciiB c = true
        · have h1 : ¬((!isAsciiB c) = true) := by simp [hA]
          rw [if_neg h1, if_neg h64, if_neg hterm,
            uri_scan_at rest (n + 1) hat', htk, hdr]
          by_cases hall : (rest.takeWhile (· != 64)).all isAsciiB = true
          · have h4 : ((c :: rest.takeWhile (· != 64)).all isAsciiB) = true :=
              by simp [hA, hall]
            rw [if_pos hall, if_pos h4]
          · have h4 : ¬(((c :: rest.takeWhile (· != 64)).all isAsciiB) = true)
              := by
              simp only [List.all_cons, Bool.and_eq_true, not_and]
              intro
              simp [hall]
            rw [if_neg (by simp [hall] :
              ¬((rest.takeWhile (· != 64)).all isAsciiB = true)), if_neg h4]
        · have h1 : ((!isAsciiB c) = true) := by
            rw [Bool.not_eq_true] at hA
            simp [hA]
          have h4 : ¬(((c :: rest.takeWhile (· != 64)).all isAsciiB) = true)
              := by
            simp only [List.all_cons, Bool.and_eq_true, not_and]
            intro hx
            rw [Bool.not_eq_true] at hA
            rw [hA] at hx
            cases hx
          rw [if_pos h1, htk, if_neg h4]

theorem uri_scan_some_at : ∀ (l : List Nat) (s : List Nat) (n : Nat),
    (l.takeWhile fun c => !isUriTermB c).contains 64 = true →
      uri_scan l (some s) n =
        (if (l.takeWhile (· != 64)).all isAsciiB then some (some s, 0)
        else none)
  | [], s, n, hat => by cases hat
  | c :: rest, s, n, hat => by
    rw [uri_scan_cons]
    by_cases h64 : (c == 64) = true
    · have hc : c = 64 := by simpa using h64
      have hA : isAsciiB c = true := by
        rw [hc]
        rfl
      have h1 : ¬((!isAsciiB c) = true) := by simp [hA]
      have htk : (c :: rest).takeWhile (· != 64) = [] := by
        rw [List.takeWhile_cons, if_neg (by simp [hc])]
      rw [if_neg h1, if_pos h64, htk]
      simp
    · by_cases hterm : isUriTermB c = true
      · rw [List.takeWhile_cons, if_neg (by simp [hterm] :
          ¬((!isUriTermB c) = true))] at hat
        cases hat
      · have hterm' : (!isUriTermB c) = true := by simp [hterm]
        rw [List.takeWhile_cons, if_pos hterm'] at hat
        simp only [List.contains_cons, Bool.or_eq_true] at hat
        have hat' : (rest.takeWhile fun c => !isUriTermB c).contains 64
            = true := by
          rcases hat with h | h
          · exfalso
            have : c = 64 := by
              have h2 : (64:Nat) = c := by simpa using h
              omega
            rw [this] at h64
            simp at h64
          · exact h
        have hne : c ≠ 64 := by
          intro h
          rw [h] at h64
          simp at h64
        have htk : (c :: rest).takeWhile (· != 64)
            = c :: rest.takeWhile (· != 64) := by
          rw [List.takeWhile_cons, if_pos (by simp [hne])]
        by_cases hA : isAsciiB c = true
        · have h1 : ¬((!isAsciiB c) = true) := by simp [hA]
          rw [if_neg h1, if_neg h64, if_neg hterm,
            uri_scan_some_at rest s (n + 1) hat', htk]
          by_cases hall : (rest.takeWhile (· != 64)).all isAsciiB = true
          · have h4 : ((c :: rest.takeWhile (· != 64)).all isAsciiB) = true :=
              by simp [hA, hall]
            rw [if_pos hall, if_pos h4]
          · have h4 : ¬(((c :: rest.takeWhile (· != 64)).all isAsciiB) = true)
              := by
              simp only [List.all_cons, Bool.and_eq_true, not_and]
              intro
              simp [hall]
            rw [if_neg (by simp [hall] :
              ¬((rest.takeWhile (· != 64)).all isAsciiB = true)), if_neg h4]
        · have h1 : ((!isAsciiB c) = true) := by
            rw [Bool.not_eq_true] at hA
            simp [hA]
          have h4 : ¬(((c :: rest.takeWhile (· != 64)).all isAsciiB) = true)
              := by
            simp only [List.all_cons, Bool.and_eq_true, not_and]
            intro hx
            rw [Bool.not_eq_true] at hA
            rw [hA] at hx
            cases hx
          rw [if_pos h1, htk, if_neg h4]

theorem takeWhile_all (q : Nat → Bool) : ∀ l : List Nat,
    (l.takeWhile q).all q = true
  | [] => rfl
  | c :: rest => by
    rw [List.takeWhile_cons]
    by_cases h : q c = true
    · rw [if_pos h]
      simp [h, takeWhile_all q rest]
    · rw [if_neg h]
      rfl

theorem count_zero_of_all_ne : ∀ l : List Nat,
    l.all (· != 64) = true → l.count 64 = 0
  | [], _ => rfl
  | c :: rest, h => by
    simp only [List.all_cons, Bool.and_eq_true] at h
    rw [List.count_cons, count_zero_of_all_ne rest h.2]
    have hc : c ≠ 64 := by simpa using h.1
    have hb : ¬((c == 64) = true) := by simp [hc]
    simp only [Nat.zero_add]
    rw [if_neg hb]

theorem region_split : ∀ auth : List Nat,
    ((auth.takeWhile fun c => !isUriTermB c).contains 64 = true) →
      (auth.takeWhile (· != 64)).all (fun c => !isUriTermB c) = true ∧
      (auth.takeWhile fun c => !isUriTermB c)
        = auth.takeWhile (· != 64) ++ 64 ::
          (((auth.dropWhile (· != 64)).tail).takeWhile fun c => !isUriTermB c) ∧
      auth = auth.takeWhile (· != 64) ++ 64 :: (auth.dropWhile (· != 64)).tail
  | [], hat => by cases hat
  | c :: rest, hat => by
    by_cases h64 : c = 64
    · have htk : (c :: rest).takeWhile (· != 64) = [] := by
        rw [List.takeWhile_cons, if_neg (by simp [h64])]
      have hdr : (c :: rest).dropWhile (· != 64) = c :: rest := by
        rw [List.dropWhile_cons, if_neg (by simp [h64])]
      have hterm : (!isUriTermB c) = true := by
        rw [h64]
        rfl
      refine ⟨by rw [htk]; rfl, ?_, ?_⟩
      · rw [htk, hdr, List.takeWhile_cons, if_pos hterm, List.nil_append, h64]
        rfl
      · rw [htk, hdr, List.nil_append, h64]
        rfl
    · by_cases hterm : isUriTermB c = true
      · rw [List.takeWhile_cons, if_neg (by simp [hterm] :
          ¬((!isUriTermB c) = true))] at hat
        cases hat
      · have hterm' : (!isUriTermB c) = true := by simp [hterm]
        rw [List.takeWhile_cons, if_pos hterm'] at hat
        simp only [List.contains_cons, Bool.or_eq_true] at hat
        have hat' : (rest.takeWhile fun c => !isUriTermB c).contains 64
            = true := by
          rcases hat with h | h
          · exfalso
            have h2 : (64:Nat) = c := by simpa using h
            omega
          · exact h
        obtain ⟨ih1, ih2, ih3⟩ := region_split rest hat'
        have htk : (c :: rest).takeWhile (· != 64)
            = c :: rest.takeWhile (· != 64) := by
          rw [List.takeWhile_cons, if_pos (by simp [h64])]
        have hdr : (c :: rest).dropWhile (· != 64)
            = rest.dropWhile (· != 64) := by
          rw [List.dropWhile_cons, if_pos (by simp [h64])]
        refine ⟨?_, ?_, ?_⟩
        · rw [htk]
          simp [hterm', ih1]
        · rw [htk, hdr, List.takeWhile_cons, if_pos hterm', ih2,
            List.cons_append]
        · rw [htk, hdr, List.cons_append, ← ih3]

theorem count_pos_of_contains : ∀ l : List Nat,
    l.contains 64 = true → 1 ≤ l.count 64
  | c :: rest, h => by
    simp only [List.contains_cons, Bool.or_eq_true] at h
    rw [List.count_cons]
    rcases h with h | h
    · have hc : c = 64 := by
        have h2 : (64:Nat) = c := by simpa using h
        omega
      rw [if_pos (by simp [hc])]
      omega
    · have := count_pos_of_contains rest h
      omega

theorem count_zero_of_not_contains : ∀ l : List Nat,
    l.contains 64 = false → l.count 64 = 0
  | [], _ => rfl
  | c :: rest, h => by
    simp only [List.contains_cons, Bool.or_eq_false_iff] at h
    rw [List.count_cons, count_zero_of_not_contains rest h.2]
    have hc : c ≠ 64 := by
      intro he
      have := h.1
      rw [he] at this
      simp at this
    rw [if_neg (by simp [hc])]

theorem uri_host_eq_spec (u : List Nat) :
    x509_constraints_uri_host u = uriHostSpec u := by
  unfold x509_constraints_uri_host uriHostSpec
  by_cases hlen : u.length < 3
  · rw [if_pos hlen, if_pos hlen]
  · rw [if_neg hlen, if_neg hlen, uri_find_authority_eq u]
    cases hsp : splitFirstAuthority u with
    | none => rfl
    | some pa =>
      obtain ⟨pre, auth⟩ := pa
      dsimp only
      by_cases hpre : pre.all isAsciiB = true
      · rw [if_pos hpre, if_neg (show ¬((!pre.all isAsciiB) = true) by
          simp [hpre])]
        dsimp only
        by_cases hat : (auth.takeWhile fun c => !isUriTermB c).contains 64
            = true
        · obtain ⟨hp_nt, hreg, hauth⟩ := region_split auth hat
          rw [uri_scan_at auth 0 hat]
          by_cases hpa : (auth.takeWhile (· != 64)).all isAsciiB = true
          · rw [if_pos hpa]
            by_cases hat2 : ((((auth.dropWhile (· != 64)).tail).takeWhile
                fun c => !isUriTermB c).contains 64) = true
            · -- a second @ before the host terminator: both sides fail
              rw [uri_scan_some_at _ _ 0 hat2]
              obtain ⟨hq_nt, hreg2, hl2⟩ := region_split _ hat2
              have hspec_none : (if (!(auth.takeWhile fun c => !isUriTermB
                  c).all isAsciiB) = true then none
                else if 2 ≤ List.count 64 (auth.takeWhile fun c =>
                    !isUriTermB c) then none
                else if ((if (auth.takeWhile fun c => !isUriTermB c).contains
                      64 = true then
                    ((auth.takeWhile fun c => !isUriTermB c).dropWhile
                      (· != 64)).tail
                  else auth.takeWhile fun c => !isUriTermB c)).isEmpty = true
                  then none
                else if (!x509_constraints_valid_host
                    ((if (auth.takeWhile fun c => !isUriTermB c).contains 64
                        = true then
                      ((auth.takeWhile fun c => !isUriTermB c).dropWhile
                        (· != 64)).tail
                    else auth.takeWhile fun c => !isUriTermB c))) = true then
                  none
                else some ((if (auth.takeWhile fun c => !isUriTermB
                    c).contains 64 = true then
                  ((auth.takeWhile fun c => !isUriTermB c).dropWhile
                    (· != 64)).tail
                  else auth.takeWhile fun c => !isUriTermB c))) =
                  (none : Option (List Nat)) := by
                by_cases hrall : ((auth.takeWhile fun c => !isUriTermB c).all
                    isAsciiB) = true
                · rw [if_neg (show ¬((!(auth.takeWhile fun c => !isUriTermB
                    c).all isAsciiB) = true) by simp [hrall])]
                  have hcp : List.count 64 (auth.takeWhile (· != 64)) = 0 :=
                    count_zero_of_all_ne _ (takeWhile_all _ auth)
                  have hc2 : 1 ≤ List.count 64 (((auth.dropWhile
                      (· != 64)).tail).takeWhile fun c => !isUriTermB c) :=
                    count_pos_of_contains _ hat2
                  have hcnt : 2 ≤ List.count 64 (auth.takeWhile fun c =>
                      !isUriTermB c) := by
                    rw [hreg, List.count_append, List.count_cons]
                    rw [if_pos (show ((64:Nat) == 64) = true from rfl)]
                    omega
                  rw [if_pos hcnt]
                · rw [if_pos (show ((!(auth.takeWhile fun c => !isUriTermB
                    c).all isAsciiB) = true) by
                      rw [Bool.not_eq_true] at hrall
                      rw [hrall]
                      rfl)]
              by_cases hP2 : (((auth.dropWhile (· != 64)).tail).takeWhile
                  (· != 64)).all isAsciiB = true
              · rw [if_pos hP2, hspec_none]
                rfl
              · rw [if_neg hP2, hspec_none]
            · -- exactly one @: the host is what follows it
              rw [Bool.not_eq_true] at hat2
              rw [uri_scan_no_at _ _ 0 hat2]
              have hF5 : ((auth.takeWhile fun c => !isUriTermB c).dropWhile
                  (· != 64)).tail
                  = ((auth.dropWhile (· != 64)).tail).takeWhile
                    fun c => !isUriTermB c := by
                rw [hreg, dropWhile_append_all _ _ _
                  (takeWhile_all (· != 64) auth), List.dropWhile_cons,
                  if_neg (show ¬(((64:Nat) != 64) = true) by simp)]
                rfl
              by_cases hall2 : ((((auth.dropWhile (· != 64)).tail).takeWhile
                  fun c => !isUriTermB c).all isAsciiB) = true
              · rw [if_pos hall2]
                have hrall : ((auth.takeWhile fun c => !isUriTermB c).all
                    isAsciiB) = true := by
                  rw [hreg, List.all_append, List.all_cons]
                  rw [show (auth.takeWhile (· != 64)).all isAsciiB = true from
                    hpa, hall2]
                  rfl
                rw [if_neg (show ¬((!(auth.takeWhile fun c => !isUriTermB
                  c).all isAsciiB) = true) by simp [hrall])]
                have hcp : List.count 64 (auth.takeWhile (· != 64)) = 0 :=
                  count_zero_of_all_ne _ (takeWhile_all _ auth)
                have hc20 : List.count 64 (((auth.dropWhile
                    (· != 64)).tail).takeWhile fun c => !isUriTermB c) = 0 :=
                  count_zero_of_not_contains _ hat2
                have hcnt : ¬(2 ≤ List.count 64 (auth.takeWhile fun c =>
                    !isUriTermB c)) := by
                  rw [hreg, List.count_append, List.count_cons]
                  rw [if_pos (show ((64:Nat) == 64) = true from rfl)]
                  omega
                rw [if_neg hcnt, if_pos hat, hF5]
                simp only [Option.getD, Nat.zero_add, take_takeWhile_length]
                by_cases hnil : ((((auth.dropWhile (· != 64)).tail).takeWhile
                    fun c => !isUriTermB c).length = 0)
                · rw [if_pos (show (((((auth.dropWhile (· != 64)).tail
                      ).takeWhile fun c => !isUriTermB c).length == 0) = true)
                      by simpa using hnil),
                    if_pos (show ((((auth.dropWhile (· != 64)).tail).takeWhile
                      fun c => !isUriTermB c).isEmpty = true) by
                        rw [List.isEmpty_iff_length_eq_zero]
                        exact hnil)]
                · rw [if_neg (show ¬(((((auth.dropWhile (· != 64)).tail
                      ).takeWhile fun c => !isUriTermB c).length == 0) = true)
                      by simpa using hnil),
                    if_neg (show ¬((((auth.dropWhile (· != 64)).tail
                      ).takeWhile fun c => !isUriTermB c).isEmpty = true) by
                        rw [List.isEmpty_iff_length_eq_zero]
                        exact hnil)]
              · rw [if_neg hall2]
                have hrall : ((auth.takeWhile fun c => !isUriTermB c).all
                    isAsciiB) = false := by
                  rw [hreg, List.all_append, List.all_cons]
                  rw [Bool.not_eq_true] at hall2
                  rw [hall2]
                  simp
                rw [if_pos (show ((!(auth.takeWhile fun c => !isUriTermB
                  c).all isAsciiB) = true) by rw [hrall]; rfl)]
          · rw [if_neg hpa]
            -- non-ASCII before the first @: both sides fail
            have hrall : ((auth.takeWhile fun c => !isUriTermB c).all isAsciiB)
                = false := by
              rw [hreg, List.all_append]
              rw [show (auth.takeWhile (· != 64)).all isAsciiB = false from by
                rw [Bool.not_eq_true] at hpa
                exact hpa]
              rfl
            rw [if_pos (show (!(auth.takeWhile fun c => !isUriTermB c).all
                isAsciiB) = true by rw [hrall]; rfl)]
        · -- no @ anywhere before the first terminator
          rw [Bool.not_eq_true] at hat
          rw [uri_scan_no_at auth none 0 hat]
          by_cases hall : ((auth.takeWhile fun c => !isUriTermB c).all isAsciiB)
              = true
          · rw [if_pos hall, if_neg (show ¬((!(auth.takeWhile fun c =>
              !isUriTermB c).all isAsciiB) = true) by simp [hall])]
            have hcnt : (auth.takeWhile fun c => !isUriTermB c).count 64 = 0 :=
              count_zero_of_not_contains _ hat
            rw [if_neg (show ¬(2 ≤ (auth.takeWhile fun c => !isUriTermB c).count
              64) by omega)]
            rw [if_neg (show ¬((auth.takeWhile fun c => !isUriTermB c).contains
              64 = true) by rw [hat]; exact Bool.false_ne_true)]
            simp only [Option.getD, Nat.zero_add, take_takeWhile_length]
            by_cases hnil : ((auth.takeWhile fun c => !isUriTermB c).length
                = 0)
            · rw [if_pos (show (((auth.takeWhile fun c => !isUriTermB c).length
                  == 0) = true) by simpa using hnil),
                if_pos (show ((auth.takeWhile fun c => !isUriTermB c).isEmpty
                  = true) by
                    rw [List.isEmpty_iff_length_eq_zero]
                    exact hnil)]
            · rw [if_neg (show ¬(((auth.takeWhile fun c => !isUriTermB c).length
                  == 0) = true) by simpa using hnil),
                if_neg (show ¬((auth.takeWhile fun c => !isUriTermB c).isEmpty
                  = true) by
                    rw [List.isEmpty_iff_length_eq_zero]
                    exact hnil)]
          · rw [if_neg hall, if_pos (show (!(auth.takeWhile fun c =>
              !isUriTermB c).all isAsciiB) = true by
                rw [Bool.not_eq_true] at hall
                rw [hall]
                rfl)]
      · rw [if_neg hpre, if_pos (show (!pre.all isAsciiB) = true by
          rw [Bool.not_eq_true] at hpre
          rw [hpre]
          rfl)]

/-- Claim C5: for every byte span, x509_constraints_uri_host succeeds exactly
when the span is at least 3 bytes, contains `//` introducing an authority,
every scanned byte is ASCII, the authority holds at most one `@`, and the
host substring (after an optional userinfo `@`, ending at end-of-input or at
the first `:`, `/`, `?` or `#`) is non-empty and passes hostname validation,
returning exactly that substring (the statement `uriHostSpec` of this
condition is compared with the embedded code); in particular
`https://user@host.example.com:443/path` yields host `host.example.com`, a
second `@` in the authority fails, and input lacking `//` fails. -/
theorem c5_uri_host_matches_spec :
    (∀ u : List Nat, x509_constraints_uri_host u = uriHostSpec u) ∧
    x509_constraints_uri_host (bytes "https://user@host.example.com:443/path")
      = some (bytes "host.example.com") ∧
    x509_constraints_uri_host (bytes "https://a@b@host.example.com/")
      = none ∧
    x509_constraints_uri_host (bytes "mailto:user.example.com") = none :=
  ⟨uri_host_eq_spec, by decide, by decide, by decide⟩
